import Mathlib

/-!
Verification development for the memoize package.

A shallow embedding of `memoize.go`:

* `Value` models the Go values that reach the memoized function as arguments,
  results and panic payloads;
* `printValue` models what `fmt.Sprintf("%v", _)` writes for such a value;
* `AsSha256` and `Memoize` are translated from the functions of the same
  names; `memoClosure` is the function literal that `Memoize` hands to
  `reflect.MakeFunc`, `keyOf` the key-building loop at its head, and `MakeFunc`
  the check that `reflect.MakeFunc` applies to what the literal returns, so
  that `Memoize` is the function a caller of the memoized function runs;
* the state of a run is a `World`: the cache `Storage`, the heap of `call`
  records that the cache entries point to, and the state of the wrapped function.

The model is sequential: one goroutine, so `mtx.Lock` and `mtx.Unlock` are
no-ops, and receiving from a channel that nobody will close blocks for ever.
-/

namespace GoMemoize

/-! ## Values and their rendering -/

/-- Go values of the kinds the development needs. `nil` is the nil interface
value, `nilSlice` a nil slice, `slice` a non-nil slice, `func` a function value
identified by its code address. -/
inductive Value where
  | nil
  | int (i : Int)
  | uint (n : Nat)
  | bool (b : Bool)
  | str (s : String)
  | func (addr : Nat)
  | array (elems : List Value)
  | slice (elems : List Value)
  | nilSlice
  | struct (fields : List Value)

mutual
/-- Boolean equality test on values. -/
def Value.beq : Value → Value → Bool
  | .nil, .nil => true
  | .int a, .int b => decide (a = b)
  | .uint a, .uint b => decide (a = b)
  | .bool a, .bool b => decide (a = b)
  | .str a, .str b => decide (a = b)
  | .func a, .func b => decide (a = b)
  | .array a, .array b => Value.beqList a b
  | .slice a, .slice b => Value.beqList a b
  | .nilSlice, .nilSlice => true
  | .struct a, .struct b => Value.beqList a b
  | _, _ => false
/-- Boolean equality test on lists of values. -/
def Value.beqList : List Value → List Value → Bool
  | [], [] => true
  | a :: as, b :: bs => Value.beq a b && Value.beqList as bs
  | _, _ => false
end

mutual
theorem Value.eq_of_beq : ∀ (a b : Value), Value.beq a b = true → a = b
  | .nil, b => by cases b <;> simp [Value.beq]
  | .int _, b => by cases b <;> simp [Value.beq]
  | .uint _, b => by cases b <;> simp [Value.beq]
  | .bool _, b => by cases b <;> simp [Value.beq]
  | .str _, b => by cases b <;> simp [Value.beq]
  | .func _, b => by cases b <;> simp [Value.beq]
  | .nilSlice, b => by cases b <;> simp [Value.beq]
  | .array xs, b => by
      cases b <;> simp [Value.beq]
      exact Value.eq_of_beqList xs _
  | .slice xs, b => by
      cases b <;> simp [Value.beq]
      exact Value.eq_of_beqList xs _
  | .struct xs, b => by
      cases b <;> simp [Value.beq]
      exact Value.eq_of_beqList xs _
theorem Value.eq_of_beqList : ∀ (as bs : List Value), Value.beqList as bs = true → as = bs
  | [], bs => by cases bs <;> simp [Value.beqList]
  | a :: as, bs => by
      cases bs with
      | nil => simp [Value.beqList]
      | cons b bs =>
        simp only [Value.beqList, Bool.and_eq_true, List.cons.injEq]
        exact fun h => ⟨Value.eq_of_beq a b h.1, Value.eq_of_beqList as bs h.2⟩
end

mutual
theorem Value.beq_self : ∀ (a : Value), Value.beq a a = true
  | .nil => by simp [Value.beq]
  | .int _ => by simp [Value.beq]
  | .uint _ => by simp [Value.beq]
  | .bool _ => by simp [Value.beq]
  | .str _ => by simp [Value.beq]
  | .func _ => by simp [Value.beq]
  | .nilSlice => by simp [Value.beq]
  | .array xs => by simp only [Value.beq]; exact Value.beqList_self xs
  | .slice xs => by simp only [Value.beq]; exact Value.beqList_self xs
  | .struct xs => by simp only [Value.beq]; exact Value.beqList_self xs
theorem Value.beqList_self : ∀ (as : List Value), Value.beqList as as = true
  | [] => by simp [Value.beqList]
  | a :: as => by
      simp only [Value.beqList, Bool.and_eq_true]
      exact ⟨Value.beq_self a, Value.beqList_self as⟩
end

instance : DecidableEq Value := fun a b =>
  if h : Value.beq a b = true then isTrue (Value.eq_of_beq a b h)
  else isFalse (fun e => h (e ▸ Value.beq_self a))

mutual
/-- What the verb `%v` of package fmt writes for a value (`printValue` of
fmt/print.go, plain `%v`, for values whose types have no String, Error or
Format method): integers in decimal, strings verbatim and unquoted, arrays and
slices as `[e1 e2 ...]`, structs as `{f1 f2 ...}`, a function as its address
in hexadecimal, a nil interface as `<nil>`. -/
def printValue : Value → String
  | .nil => "<nil>"
  | .int i => toString i
  | .uint n => toString n
  | .bool b => if b then "true" else "false"
  | .str s => s
  | .func addr => if addr = 0 then "<nil>" else "0x" ++ String.mk (Nat.toDigits 16 addr)
  | .array es => "[" ++ printElems es ++ "]"
  | .slice es => "[" ++ printElems es ++ "]"
  | .nilSlice => "[]"
  | .struct fs => "\x7b" ++ printElems fs ++ "\x7d"
/-- The elements of an aggregate, separated by single spaces. -/
def printElems : List Value → String
  | [] => ""
  | [v] => printValue v
  | v :: w :: vs => printValue v ++ " " ++ printElems (w :: vs)
end

/-- The call `fmt.Sprintf("%v", o)`. -/
def fmtSprintfV (o : Value) : String := printValue o

/-- Source function `AsSha256`: the digest of the `%v` rendering of `o`, as text.
The digest itself, `sha256hex` (SHA-256 followed by `%x`), is code of the Go
standard library and is taken as a parameter. -/
def AsSha256 (sha256hex : String → String) (o : Value) : String :=
  sha256hex (fmtSprintfV o)

/-! ## The state of a run -/

/-- Source struct `call`. `waitClosed` says whether the channel `wait` has been
closed; `panicked` is a `reflect.Value`, with `none` for the zero (invalid)
Value. -/
structure call where
  waitClosed : Bool
  results : List Value
  panicked : Option Value
  deriving DecidableEq

/-- The function `reflect.ValueOf` on an interface value: the zero Value for a
nil interface, a valid Value otherwise. -/
def reflectValueOf (p : Value) : Option Value :=
  if p = Value.nil then none else some p

/-- The state of a run. `Storage` is the cache of the `Memoizer` (digest to
pointer), `heap` holds the `call` records the pointers refer to, `executions`
counts the executions of wrapped functions (each `v.Call` or `v.CallSlice` of
the closure adds one; it is instrumentation, not program state), and `user` is
the state the wrapped function itself reads and writes. Entries do not expire
while the run lasts. -/
structure World (σ : Type) where
  Storage : List (String × Nat)
  heap : List call
  executions : Nat
  user : σ
  deriving DecidableEq

/-- Source function `NewMemoizer`: an empty cache. -/
def NewMemoizer {σ : Type} (user : σ) : World σ :=
  { Storage := [], heap := [], executions := 0, user := user }

/-- The cache operation `Storage.Get`. -/
def Get (s : List (String × Nat)) (k : String) : Option Nat :=
  match s with
  | [] => none
  | (k1, p) :: rest => if k1 = k then some p else Get rest k

/-- The cache operation `Storage.Set`: the new binding shadows an older one. -/
def Set (s : List (String × Nat)) (k : String) (p : Nat) : List (String × Nat) :=
  (k, p) :: s

/-- Apply `f` to the record at address `p`. -/
def updateCall (heap : List call) (p : Nat) (f : call → call) : List call :=
  match heap[p]? with
  | some c => heap.set p (f c)
  | none => heap

/-- How a call ends: it returns values, it panics with a payload, or it waits
for ever on a channel that will not be closed. -/
inductive Outcome where
  | returned (results : List Value)
  | panicked (p : Value)
  | blocked
  deriving DecidableEq

/-- A function as the closure sees it: from the arguments and the state to an
outcome and a new state; `none` when the model ran out of fuel. -/
abbrev Fn (σ : Type) := List Value → World σ → Option (Outcome × World σ)

/-- A wrapped function that does not call back into the memoizer: it reads and
writes only its own state. -/
def liftFn {σ : Type} (f : List Value → σ → Outcome × σ) : Fn σ :=
  fun args w => some ((f args w.user).1, { w with user := (f args w.user).2 })

/-! ## Key derivation and the memoizing closure -/

/-- Lines 83 to 87 of the closure: the trailing slice of a variadic call copied
into an array of the same length. -/
def variadicArray : Value → Value
  | .slice es => .array es
  | .nilSlice => .array []
  | v => v

/-- The loop `for i, v := range args` of the closure, from index `i` on; `n` is
`len(args)`. -/
def keyElems (isVariadic : Bool) (n : Nat) : Nat → List Value → List Value
  | _, [] => []
  | i, v :: vs =>
    (if i = n - 1 ∧ isVariadic = true then variadicArray v else v)
      :: keyElems isVariadic n (i + 1) vs

/-- The array `key` the closure builds from its arguments. -/
def keyOf (isVariadic : Bool) (args : List Value) : Value :=
  .array (keyElems isVariadic args.length 0 args)

/-- The end of the executor path, lines 132 to 151 of the closure, for the
record at address `p`: after a normal return the results are stored and the
channel is closed; after a panic the deferred function stores the recovered
payload, closes the channel and panics again with the payload; when the wrapped
function never ends, nothing more happens. -/
def settle {σ : Type} (p : Nat) : Option (Outcome × World σ) → Option (Outcome × World σ)
  | none => none
  | some (Outcome.returned results, w2) =>
    let done := updateCall w2.heap p (fun c => { c with results := results, waitClosed := true })
    some (Outcome.returned results, { w2 with heap := done })
  | some (Outcome.panicked payload, w2) =>
    let done := updateCall w2.heap p
      (fun c => { c with panicked := reflectValueOf payload, waitClosed := true })
    some (Outcome.panicked payload, { w2 with heap := done })
  | some (Outcome.blocked, w2) => some (Outcome.blocked, w2)

/-- The function literal that source function `Memoize` hands to
`reflect.MakeFunc` (lines 78 to 152), for a wrapped function `fn` that is
variadic or not. What it returns still has to pass `MakeFunc`. -/
def memoClosure {σ : Type} (sha256hex : String → String) (isVariadic : Bool) (fn : Fn σ) : Fn σ :=
  fun args w =>
    let mykey := AsSha256 sha256hex (keyOf isVariadic args)
    match Get w.Storage mykey with
    | some p =>
      match w.heap[p]? with
      | none => none
      | some c =>
        if c.waitClosed = false then some (Outcome.blocked, w)
        else
          match c.panicked with
          | some payload => some (Outcome.panicked payload, w)
          | none => some (Outcome.returned c.results, w)
    | none =>
      let p := w.heap.length
      let w1 : World σ :=
        { w with heap := w.heap ++ [{ waitClosed := false, results := [], panicked := none }],
                 Storage := Set w.Storage mykey p }
      settle p (fn args { w1 with executions := w1.executions + 1 })

/-- Go types of the kinds the development needs; `iface` is `interface{}`. -/
inductive GoType where
  | int
  | uint
  | bool
  | string
  | func
  | iface
  | array (n : Nat) (elem : GoType)
  | slice (elem : GoType)
  | struct (fields : List GoType)

mutual
/-- Whether a value can be assigned to a variable of the given type: the type
is `interface{}`, or it is the type of the value. -/
def assignable : Value → GoType → Bool
  | _, .iface => true
  | .int _, .int => true
  | .uint _, .uint => true
  | .bool _, .bool => true
  | .str _, .string => true
  | .func _, .func => true
  | .array es, .array n elem => decide (es.length = n) && assignableAll es elem
  | .slice es, .slice elem => assignableAll es elem
  | .nilSlice, .slice _ => true
  | .struct fs, .struct ts => assignableFields fs ts
  | _, _ => false
/-- Whether all the elements of an array or slice are of the element type. -/
def assignableAll : List Value → GoType → Bool
  | [], _ => true
  | v :: vs, elem => assignable v elem && assignableAll vs elem
/-- Whether the fields of a struct value are of the field types, one by one. -/
def assignableFields : List Value → List GoType → Bool
  | [], [] => true
  | v :: vs, t :: ts => assignable v t && assignableFields vs ts
  | _, _ => false
end

/-- Whether the results are assignable, one by one, to the result types. -/
def assignableResults : List Value → List GoType → Bool
  | [], [] => true
  | v :: vs, t :: ts => assignable v t && assignableResults vs ts
  | _, _ => false

/-- The payload of the panic of package reflect for a result list of the wrong
length. -/
def wrongReturnCount : Value :=
  Value.str "reflect: wrong return count from function created by MakeFunc"

/-- The payload of the panic of package reflect for a result that is not
assignable to the result type; the message of package reflect goes on to
name the two types. -/
def notAssignable : Value :=
  Value.str "reflect.MakeFunc: value is not assignable to the result type"

/-- What `reflect.MakeFunc` makes of the outcome of its function literal, for a
function type with result types `outs`: a result list of another length is a
panic, a result that is not assignable to its result type is a panic, and
everything else is passed on. -/
def checkOut (outs : List GoType) : Outcome → Outcome
  | .returned out =>
    if out.length ≠ outs.length then Outcome.panicked wrongReturnCount
    else if assignableResults out outs = true then Outcome.returned out
    else Outcome.panicked notAssignable
  | o => o

/-- The function that `reflect.MakeFunc(t, body)` makes, `outs` being the
result types of `t`. -/
def MakeFunc {σ : Type} (outs : List GoType) (body : Fn σ) : Fn σ :=
  fun args w =>
    match body args w with
    | none => none
    | some (o, w1) => some (checkOut outs o, w1)

/-- What the code uses of the type `t` of the wrapped function: whether it is
variadic, and its result types. -/
structure FuncType where
  isVariadic : Bool
  outs : List GoType

/-- Source function `Memoize`: the memoized function for a wrapped function
`fn` of type `t`, as its callers run it. -/
def Memoize {σ : Type} (sha256hex : String → String) (t : FuncType) (fn : Fn σ) : Fn σ :=
  MakeFunc t.outs (memoClosure sha256hex t.isVariadic fn)

/-- What a later caller gets from a completed entry whose executor ended with
the given outcome. -/
def replayOf : Outcome → Outcome
  | .returned r => .returned r
  | .panicked payload => if payload = Value.nil then .returned [] else .panicked payload
  | .blocked => .blocked

/-- Sequential calls, one after the other, each with the user state it left
behind. A call that blocks is the last one to run. -/
def callSeq {σ : Type} (m : Fn σ) : List (List Value) → World σ → Option (List (Outcome × σ) × World σ)
  | [], w => some ([], w)
  | a :: rest, w =>
    match m a w with
    | none => none
    | some (Outcome.blocked, w1) => some ([(Outcome.blocked, w1.user)], w1)
    | some (o, w1) =>
      match callSeq m rest w1 with
      | none => none
      | some (os, w2) => some ((o, w1.user) :: os, w2)

/-! ## The functions of the tests -/

/-- The function `f` of `TestPanic`: it counts its executions and panics with
the count when the count is odd. -/
def testPanicF : List Value → Nat → Outcome × Nat :=
  fun _ count =>
    if (count + 1) % 2 = 1 then (Outcome.panicked (Value.int (count + 1)), count + 1)
    else (Outcome.returned [], count + 1)

/-- The body of `concat` of `TestVariadic`; `self` is the variable `concat`,
which holds the memoized function when the body runs. -/
def concat (self : Fn Nat) : Fn Nat :=
  fun args w =>
    let w1 : World Nat := { w with user := w.user + 1 }
    match args with
    | [Value.str s0, Value.nilSlice] => some (Outcome.returned [Value.str s0], w1)
    | [Value.str s0, Value.slice []] => some (Outcome.returned [Value.str s0], w1)
    | [Value.str s0, Value.slice (Value.str x :: rest)] =>
      self [Value.str (s0 ++ x), Value.slice rest] w1
    | _ => none

/-- The memoized `concat`: the variable `concat` after the assignment
`concat = cache.Memoize(concat)`. The first argument bounds the depth of the
recursion. -/
def concatMemo (sha256hex : String → String) : Nat → Fn Nat
  | 0 => fun _ _ => none
  | fuel + 1 =>
    Memoize sha256hex { isVariadic := true, outs := [GoType.string] }
      (concat (concatMemo sha256hex fuel))

/-- The function `fib` of the tests, on `uint64`. -/
def fib : Nat → Nat
  | 0 => 0
  | 1 => 1
  | n + 2 => (fib (n + 1) + fib n) % 2 ^ 64

/-- The function `fib` as a wrapped function; the state counts its top-level
executions. -/
def fibFn : List Value → Nat → Outcome × Nat :=
  fun args count =>
    match args with
    | [Value.uint n] => (Outcome.returned [Value.uint (fib n)], count + 1)
    | _ => (Outcome.returned [], count + 1)

/-- A wrapped function that counts its executions and returns its first
argument: `func(s0 string, ...) string { count++; return s0 }`. -/
def firstArgFn : List Value → Nat → Outcome × Nat :=
  fun args count => (Outcome.returned (args.take 1), count + 1)

/-- A wrapped function that counts its executions and panics with its first
argument as payload: `func(x interface{}) { count++; panic(x) }`. -/
def panicArgFn : List Value → Nat → Outcome × Nat :=
  fun args count => (Outcome.panicked (args.headD Value.nil), count + 1)

/-- A wrapped function without results that counts its executions:
`func(x interface{}) { count++ }`. -/
def noResultFn : List Value → Nat → Outcome × Nat :=
  fun _ count => (Outcome.returned [], count + 1)

/-- A deterministic wrapped function without side effects: it returns `fn args`
and has no state of its own. -/
def pureFn (fn : List Value → List Value) : List Value → Unit → Outcome × Unit :=
  fun args _ => (Outcome.returned (fn args), ())

/-- A function that leaves the entries of the cache alone: whatever it does to
the state, every entry stays bound to its record and the record stays as it
is. Functions that only touch their own state are of this kind, and so are
their memoized versions and functions that call such memoized functions; a
function that flushes the cache is not. -/
def KeepsEntries {σ : Type} (fn : Fn σ) : Prop :=
  ∀ (args : List Value) (w w1 : World σ) (o : Outcome), fn args w = some (o, w1) →
    ∀ (k : String) (p : Nat) (c : call), Get w.Storage k = some p → w.heap[p]? = some c →
      Get w1.Storage k = some p ∧ w1.heap[p]? = some c

/-- The states that a run can reach from `w` by further calls of memoized
functions, of any type and with any wrapped function that leaves the entries
of the cache alone, through the same memoizer, while no entry expires. -/
inductive Later {σ : Type} (H : String → String) : World σ → World σ → Prop where
  | refl (w : World σ) : Later H w w
  | call {w w1 w2 : World σ} (t : FuncType) (fn : Fn σ) (hfn : KeepsEntries fn)
      (args : List Value) (o : Outcome) :
      Later H w w1 → Memoize H t fn args w1 = some (o, w2) → Later H w w2

/-- The arguments the closure receives for `concat(s0, xs...)` with a non-nil
trailing slice. -/
def concatArgs (s0 : String) (xs : List String) : List Value :=
  [Value.str s0, Value.slice (xs.map Value.str)]

/-- The recursion chain of `concat(s0, x1, ..., xk)`: the argument tuples
(s0 + x1 + ... + xi ; x(i+1), ..., xk) for i = 0, ..., k, in order. -/
def chain : String → List String → List (List Value)
  | s0, [] => [concatArgs s0 []]
  | s0, x :: rest => concatArgs s0 (x :: rest) :: chain (s0 ++ x) rest

/-- The tuples of a chain taken in order up to, and without, the first one
whose key has an entry in the cache `st`. -/
def chainNew (H : String → String) (st : List (String × Nat)) : List (List Value) → List (List Value)
  | [] => []
  | a :: rest =>
    match Get st (AsSha256 H (keyOf true a)) with
    | none => a :: chainNew H st rest
    | some _ => []

/-- What a call of the memoized `concat` with the tuple (s0 ; xs) does to a
state `w`: it ends with `o` in state `w1`, with one execution for each tuple of
`chainNew`, each of which has got an entry and a completed record of its own,
and with all the older entries and records untouched. -/
def ChainResult (H : String → String) (s0 : String) (xs : List String) (w : World Nat)
    (o : Outcome) (w1 : World Nat) : Prop :=
  o ≠ Outcome.blocked ∧
  w1.user = w.user + (chainNew H w.Storage (chain s0 xs)).length ∧
  w1.executions = w.executions + (chainNew H w.Storage (chain s0 xs)).length ∧
  (∀ (i : Nat) (a : List Value), (chainNew H w.Storage (chain s0 xs))[i]? = some a →
    Get w1.Storage (AsSha256 H (keyOf true a)) = some (w.heap.length + i) ∧
    ∃ c, w1.heap[w.heap.length + i]? = some c ∧ c.waitClosed = true) ∧
  (∀ (k : String) (p : Nat), Get w.Storage k = some p → Get w1.Storage k = some p) ∧
  (∀ (p : Nat) (c : call), w.heap[p]? = some c → w1.heap[p]? = some c) ∧
  ((chainNew H w.Storage (chain s0 xs)).length = (chain s0 xs).length →
    o = Outcome.returned [Value.str (xs.foldl (fun a b => a ++ b) s0)])

/-- A function that leaves pending entries alone: whatever it does to the
state, an entry whose record is still pending stays bound to that record, and
the record stays pending. Functions that only touch their own state are of
this kind, and so are functions that call memoized functions of this kind;
a function that flushes the cache is not. -/
def KeepsPending {σ : Type} (fn : Fn σ) : Prop :=
  ∀ (args : List Value) (w w1 : World σ) (o : Outcome), fn args w = some (o, w1) →
    ∀ (k : String) (p : Nat), Get w.Storage k = some p →
      w.heap[p]? = some { waitClosed := false, results := [], panicked := none } →
      Get w1.Storage k = some p ∧
        w1.heap[p]? = some { waitClosed := false, results := [], panicked := none }

/-- What a caller that finds the record `c` in the cache gets: lines 112 to 116
of the closure. -/
def readCall (c : call) : Outcome :=
  if c.waitClosed = false then Outcome.blocked
  else
    match c.panicked with
    | some payload => Outcome.panicked payload
    | none => Outcome.returned c.results

/-- The record an executor leaves behind when the wrapped function ended with
the given outcome: lines 120, 136, 137, 148 and 149 of the closure. -/
def recordOf : Outcome → call
  | .returned r => { waitClosed := true, results := r, panicked := none }
  | .panicked payload => { waitClosed := true, results := [], panicked := reflectValueOf payload }
  | .blocked => { waitClosed := false, results := [], panicked := none }

/-! ## General facts about the closure -/

theorem Get_Set_self (s : List (String × Nat)) (k : String) (p : Nat) :
    Get (Set s k p) k = some p := by
  simp [Get, Set]

theorem updateCall_append_last (heap : List call) (c : call) (f : call → call) :
    updateCall (heap ++ [c]) heap.length f = heap ++ [f c] := by
  simp [updateCall]

theorem readCall_recordOf (o : Outcome) : readCall (recordOf o) = replayOf o := by
  cases o with
  | returned r => simp [readCall, recordOf, replayOf]
  | panicked payload =>
    by_cases h : payload = Value.nil <;> simp [readCall, recordOf, replayOf, reflectValueOf, h]
  | blocked => simp [readCall, recordOf, replayOf]

/-- A caller that finds an entry gets what the record says and changes nothing;
the wrapped function plays no part. -/
theorem memoClosure_hit {σ : Type} (H : String → String) (v : Bool) (fn : Fn σ) (args : List Value)
    (w : World σ) (p : Nat) (c : call)
    (hget : Get w.Storage (AsSha256 H (keyOf v args)) = some p) (hc : w.heap[p]? = some c) :
    memoClosure H v fn args w = some (readCall c, w) := by
  unfold memoClosure
  simp only [hget, hc, readCall]
  by_cases h1 : c.waitClosed = false
  · simp [h1]
  · simp only [h1, if_false]
    cases c.panicked <;> rfl

/-- A caller that finds no entry stores a pending record under the key, runs
the wrapped function and settles the record. -/
theorem memoClosure_miss_fn {σ : Type} (H : String → String) (v : Bool) (fn : Fn σ)
    (args : List Value) (w : World σ)
    (hmiss : Get w.Storage (AsSha256 H (keyOf v args)) = none) :
    memoClosure H v fn args w =
      settle w.heap.length (fn args
        { Storage := Set w.Storage (AsSha256 H (keyOf v args)) w.heap.length,
          heap := w.heap ++ [{ waitClosed := false, results := [], panicked := none }],
          executions := w.executions + 1,
          user := w.user }) := by
  unfold memoClosure
  simp only [hmiss]

/-- A caller that finds no entry becomes the executor: it runs the wrapped
function once and leaves a completed record under the key. -/
theorem memoClosure_miss {σ : Type} (H : String → String) (v : Bool)
    (f : List Value → σ → Outcome × σ) (args : List Value) (w : World σ)
    (hmiss : Get w.Storage (AsSha256 H (keyOf v args)) = none) :
    memoClosure H v (liftFn f) args w =
      some ((f args w.user).1,
        { Storage := Set w.Storage (AsSha256 H (keyOf v args)) w.heap.length,
          heap := w.heap ++ [recordOf (f args w.user).1],
          executions := w.executions + 1,
          user := (f args w.user).2 }) := by
  rw [memoClosure_miss_fn H v (liftFn f) args w hmiss]
  simp only [liftFn]
  cases hf : (f args w.user).1 <;> simp [settle, updateCall_append_last, recordOf]

/-- A call that finds an entry under its key returns what the record says and
leaves the state as it was. -/
theorem memoClosure_found {σ : Type} (H : String → String) (v : Bool) (fn : Fn σ)
    (args : List Value) (w w1 : World σ) (p : Nat) (o : Outcome)
    (hget : Get w.Storage (AsSha256 H (keyOf v args)) = some p)
    (h : memoClosure H v fn args w = some (o, w1)) :
    ∃ c, w.heap[p]? = some c ∧ o = readCall c ∧ w1 = w := by
  cases hc : w.heap[p]? with
  | none =>
    unfold memoClosure at h
    simp [hget, hc] at h
  | some c =>
    rw [memoClosure_hit H v fn args w p c hget hc] at h
    simp only [Option.some.injEq, Prod.mk.injEq] at h
    exact ⟨c, rfl, h.1.symm, h.2.symm⟩

/-- The state an executor leaves behind. -/
theorem memoClosure_miss_then_hit {σ : Type} (H : String → String) (v : Bool)
    (f : List Value → σ → Outcome × σ) (args : List Value) (w : World σ)
    (hmiss : Get w.Storage (AsSha256 H (keyOf v args)) = none) :
    ∃ w1, memoClosure H v (liftFn f) args w = some ((f args w.user).1, w1) ∧
      w1.executions = w.executions + 1 ∧
      w1.user = (f args w.user).2 ∧
      Get w1.Storage (AsSha256 H (keyOf v args)) = some w.heap.length ∧
      w1.heap = w.heap ++ [recordOf (f args w.user).1] := by
  refine ⟨_, memoClosure_miss H v f args w hmiss, rfl, rfl, Get_Set_self _ _ _, rfl⟩

/-- The loop over the arguments changes only the last one, and only for a
variadic function. -/
theorem keyElems_append_last (v : Bool) (n : Nat) (leading : List Value) (last : Value) :
    ∀ i, i + leading.length + 1 = n →
      keyElems v n i (leading ++ [last]) =
        leading ++ [if v = true then variadicArray last else last] := by
  induction leading with
  | nil =>
    intro i hi
    have : i = n - 1 := by simp at hi; omega
    simp [keyElems, this]
  | cons x xs ih =>
    intro i hi
    have hne : ¬ (i = n - 1) := by simp at hi; omega
    have hrec := ih (i + 1) (by simp at hi ⊢; omega)
    simp [keyElems, hne, hrec]

theorem keyOf_append_last (v : Bool) (leading : List Value) (last : Value) :
    keyOf v (leading ++ [last]) =
      Value.array (leading ++ [if v = true then variadicArray last else last]) := by
  unfold keyOf
  rw [keyElems_append_last v _ leading last 0 (by simp)]

theorem Get_Set_other (s : List (String × Nat)) (k k1 : String) (p : Nat) (h : k1 ≠ k) :
    Get (Set s k1 p) k = Get s k := by
  simp [Get, Set, h]

theorem getElem?_lt_length {α : Type} (l : List α) (p : Nat) (c : α) (h : l[p]? = some c) :
    p < l.length := by
  rcases Nat.lt_or_ge p l.length with h1 | h1
  · exact h1
  · rw [List.getElem?_eq_none h1] at h
    exact Option.noConfusion h

theorem updateCall_get_self (heap : List call) (p : Nat) (f : call → call) (c : call)
    (h : heap[p]? = some c) : (updateCall heap p f)[p]? = some (f c) := by
  have hlt : p < heap.length := getElem?_lt_length _ _ _ h
  simp [updateCall, h, hlt]

theorem updateCall_get_other (heap : List call) (p q : Nat) (f : call → call) (h : q ≠ p) :
    (updateCall heap p f)[q]? = heap[q]? := by
  unfold updateCall
  cases hp : heap[p]? with
  | none => rfl
  | some c => simp [List.getElem?_set_ne (Ne.symm h)]

/-! ### From the function literal to the memoized function -/

theorem MakeFunc_of_body {σ : Type} (outs : List GoType) (body : Fn σ) (args : List Value)
    (w w1 : World σ) (o : Outcome) (h : body args w = some (o, w1)) :
    MakeFunc outs body args w = some (checkOut outs o, w1) := by
  simp only [MakeFunc, h]

theorem MakeFunc_some {σ : Type} (outs : List GoType) (body : Fn σ) (args : List Value)
    (w w1 : World σ) (o : Outcome) (h : MakeFunc outs body args w = some (o, w1)) :
    ∃ o1, body args w = some (o1, w1) ∧ o = checkOut outs o1 := by
  unfold MakeFunc at h
  cases hb : body args w with
  | none =>
    rw [hb] at h
    exact Option.noConfusion h
  | some ow =>
    obtain ⟨o1, w2⟩ := ow
    rw [hb] at h
    simp only [Option.some.injEq, Prod.mk.injEq] at h
    exact ⟨o1, by rw [h.2], h.1.symm⟩

/-- The memoized function ends in the state the function literal ends in, with
the outcome of the literal passed through the check of `reflect.MakeFunc`. -/
theorem Memoize_of_memoClosure {σ : Type} (H : String → String) (t : FuncType) (fn : Fn σ)
    (args : List Value) (w w1 : World σ) (o : Outcome)
    (h : memoClosure H t.isVariadic fn args w = some (o, w1)) :
    Memoize H t fn args w = some (checkOut t.outs o, w1) :=
  MakeFunc_of_body t.outs _ args w w1 o h

theorem Memoize_some {σ : Type} (H : String → String) (t : FuncType) (fn : Fn σ)
    (args : List Value) (w w1 : World σ) (o : Outcome)
    (h : Memoize H t fn args w = some (o, w1)) :
    ∃ o1, memoClosure H t.isVariadic fn args w = some (o1, w1) ∧ o = checkOut t.outs o1 :=
  MakeFunc_some t.outs _ args w w1 o h

theorem checkOut_panicked (outs : List GoType) (payload : Value) :
    checkOut outs (Outcome.panicked payload) = Outcome.panicked payload := rfl

theorem checkOut_blocked (outs : List GoType) : checkOut outs Outcome.blocked = Outcome.blocked :=
  rfl

/-- The check of `reflect.MakeFunc` never turns an outcome into a call that
does not end, nor the other way round. -/
theorem checkOut_eq_blocked (outs : List GoType) (o : Outcome) :
    checkOut outs o = Outcome.blocked ↔ o = Outcome.blocked := by
  cases o with
  | returned out =>
    simp only [checkOut]
    split
    · simp
    · split <;> simp
  | panicked payload => simp [checkOut]
  | blocked => simp [checkOut]

/-- Results that passed the check pass it again. -/
theorem checkOut_idem (outs : List GoType) (o : Outcome) :
    checkOut outs (checkOut outs o) = checkOut outs o := by
  cases o with
  | returned out =>
    by_cases hlen : out.length ≠ outs.length
    · simp [checkOut, hlen]
    · by_cases hok : assignableResults out outs = true
      · simp [checkOut, hlen, hok]
      · simp [checkOut, hlen, hok]
  | panicked payload => rfl
  | blocked => rfl

/-! ### Functions that leave the entries of the cache alone -/

theorem keepsEntries_liftFn {σ : Type} (f : List Value → σ → Outcome × σ) :
    KeepsEntries (liftFn f) := by
  intro args w w1 o h k p c hget hc
  simp only [liftFn, Option.some.injEq, Prod.mk.injEq] at h
  obtain ⟨_, hw⟩ := h
  subst hw
  exact ⟨hget, hc⟩

theorem keepsEntries_memoClosure {σ : Type} (H : String → String) (v : Bool) (fn : Fn σ)
    (hfn : KeepsEntries fn) : KeepsEntries (memoClosure H v fn) := by
  intro args w w1 o h k p c hget hc
  cases hg : Get w.Storage (AsSha256 H (keyOf v args)) with
  | some q =>
    obtain ⟨_, _, _, hw⟩ := memoClosure_found H v fn args w w1 q o hg h
    subst hw
    exact ⟨hget, hc⟩
  | none =>
    rw [memoClosure_miss_fn H v fn args w hg] at h
    have hne : AsSha256 H (keyOf v args) ≠ k := by
      intro e
      rw [e, hget] at hg
      exact Option.noConfusion hg
    have hlt : p < w.heap.length := getElem?_lt_length _ _ _ hc
    cases hres : fn args
        { Storage := Set w.Storage (AsSha256 H (keyOf v args)) w.heap.length,
          heap := w.heap ++ [{ waitClosed := false, results := [], panicked := none }],
          executions := w.executions + 1,
          user := w.user } with
    | none =>
      rw [hres] at h
      exact Option.noConfusion h
    | some ow =>
      obtain ⟨o2, w2⟩ := ow
      obtain ⟨hget2, hc2⟩ := hfn args _ w2 o2 hres k p c
        (by rw [Get_Set_other _ _ _ _ hne]; exact hget)
        (by
          show (w.heap ++ _)[p]? = _
          rw [List.getElem?_append_left hlt]
          exact hc)
      rw [hres] at h
      cases o2 with
      | returned r =>
        simp only [settle, Option.some.injEq, Prod.mk.injEq] at h
        obtain ⟨_, hw⟩ := h
        subst hw
        exact ⟨hget2, by
          show (updateCall w2.heap w.heap.length _)[p]? = _
          rw [updateCall_get_other _ _ _ _ (by omega)]
          exact hc2⟩
      | panicked payload =>
        simp only [settle, Option.some.injEq, Prod.mk.injEq] at h
        obtain ⟨_, hw⟩ := h
        subst hw
        exact ⟨hget2, by
          show (updateCall w2.heap w.heap.length _)[p]? = _
          rw [updateCall_get_other _ _ _ _ (by omega)]
          exact hc2⟩
      | blocked =>
        simp only [settle, Option.some.injEq, Prod.mk.injEq] at h
        obtain ⟨_, hw⟩ := h
        subst hw
        exact ⟨hget2, hc2⟩

theorem keepsEntries_Memoize {σ : Type} (H : String → String) (t : FuncType) (fn : Fn σ)
    (hfn : KeepsEntries fn) : KeepsEntries (Memoize H t fn) := by
  intro args w w1 o h k p c hget hc
  obtain ⟨o1, h1, _⟩ := Memoize_some H t fn args w w1 o h
  exact keepsEntries_memoClosure H t.isVariadic fn hfn args w w1 o1 h1 k p c hget hc

/-- Entries and their records stay as they are along every further run. -/
theorem entry_stable {σ : Type} (H : String → String) (w w2 : World σ) (hl : Later H w w2)
    (k : String) (p : Nat) (c : call)
    (hget : Get w.Storage k = some p) (hc : w.heap[p]? = some c) :
    Get w2.Storage k = some p ∧ w2.heap[p]? = some c := by
  induction hl with
  | refl => exact ⟨hget, hc⟩
  | call t fn hfn args o _ hcall ih =>
    exact keepsEntries_Memoize H t fn hfn args _ _ o hcall k p c ih.1 ih.2

/-- When the wrapped function ends, the executor closes the record. -/
theorem settle_ended {σ : Type} (p : Nat) (o : Outcome) (w2 : World σ) (ho : o ≠ Outcome.blocked) :
    ∃ f : call → call, (∀ c, (f c).waitClosed = true) ∧
      settle p (some (o, w2)) = some (o, { w2 with heap := updateCall w2.heap p f }) := by
  cases o with
  | returned r => exact ⟨_, fun _ => rfl, rfl⟩
  | panicked payload => exact ⟨_, fun _ => rfl, rfl⟩
  | blocked => exact absurd rfl ho

/-! ## C1: the second call is served from the cache -/

/-- The function literal on its second call: when a first call returns
normally with results `r`, a second call with the same arguments, made in the
state the first one left, returns `r` again and leaves that state unchanged. -/
theorem memoClosure_second_call {σ : Type} (H : String → String) (v : Bool)
    (f : List Value → σ → Outcome × σ) (args : List Value) (w w1 : World σ) (r : List Value)
    (h : memoClosure H v (liftFn f) args w = some (Outcome.returned r, w1)) :
    memoClosure H v (liftFn f) args w1 = some (Outcome.returned r, w1) ∧
      w1.executions ≤ w.executions + 1 := by
  cases hg : Get w.Storage (AsSha256 H (keyOf v args)) with
  | none =>
    rw [memoClosure_miss H v f args w hg] at h
    simp only [Option.some.injEq, Prod.mk.injEq] at h
    obtain ⟨ho, hw⟩ := h
    subst hw
    refine ⟨?_, le_refl _⟩
    have hhit := memoClosure_hit H v (liftFn f) args
      { Storage := Set w.Storage (AsSha256 H (keyOf v args)) w.heap.length,
        heap := w.heap ++ [recordOf (f args w.user).1],
        executions := w.executions + 1,
        user := (f args w.user).2 } w.heap.length (recordOf (f args w.user).1)
      (Get_Set_self _ _ _) (by simp)
    rw [hhit, readCall_recordOf, ho]
    rfl
  | some p =>
    obtain ⟨c, hc, ho, hw⟩ := memoClosure_found H v (liftFn f) args w w1 p _ hg h
    subst hw
    refine ⟨?_, Nat.le_succ _⟩
    rw [memoClosure_hit H v (liftFn f) args w1 p c hg hc, ← ho]

/-- Claim C1. When a first call with arguments `args` returns normally with
results `r` (the function literal returns `r`), a second call with the same
arguments, made in the state the first one left, returns `r` again and leaves
that state unchanged, execution counter and state of the wrapped function
included: the wrapped function is not executed again. Over the two calls the
counter grows by at most one. This is so for the function literal and for the
memoized function that `reflect.MakeFunc` makes of it, for every list `outs`
of result types: both calls of the memoized function end alike and in the same
state, with `r` when `r` is of the result types, as the results of a function
of that type are. -/
theorem second_call_served_from_cache {σ : Type} (H : String → String) (v : Bool)
    (outs : List GoType)
    (f : List Value → σ → Outcome × σ) (args : List Value) (w w1 : World σ) (r : List Value)
    (h : memoClosure H v (liftFn f) args w = some (Outcome.returned r, w1)) :
    memoClosure H v (liftFn f) args w1 = some (Outcome.returned r, w1) ∧
      w1.executions ≤ w.executions + 1 ∧
      Memoize H { isVariadic := v, outs := outs } (liftFn f) args w =
        some (checkOut outs (Outcome.returned r), w1) ∧
      Memoize H { isVariadic := v, outs := outs } (liftFn f) args w1 =
        some (checkOut outs (Outcome.returned r), w1) := by
  obtain ⟨h2, hex⟩ := memoClosure_second_call H v f args w w1 r h
  exact ⟨h2, hex,
    Memoize_of_memoClosure H { isVariadic := v, outs := outs } (liftFn f) args w w1 _ h,
    Memoize_of_memoClosure H { isVariadic := v, outs := outs } (liftFn f) args w1 w1 _ h2⟩

/-- Witness for C1: `fib` memoized, called twice with 10 on a fresh memoizer. -/
theorem second_call_served_from_cache_witness :
    memoClosure id false (liftFn fibFn) [Value.uint 10] (NewMemoizer 0) =
        some (Outcome.returned [Value.uint 55],
          { Storage := [("[10]", 0)], heap := [⟨true, [Value.uint 55], none⟩],
            executions := 1, user := 1 }) ∧
      (memoClosure id false (liftFn fibFn) [Value.uint 10]
          { Storage := [("[10]", 0)], heap := [⟨true, [Value.uint 55], none⟩],
            executions := 1, user := 1 } =
        some (Outcome.returned [Value.uint 55],
          { Storage := [("[10]", 0)], heap := [⟨true, [Value.uint 55], none⟩],
            executions := 1, user := 1 }) ∧
        (1 : Nat) ≤ 0 + 1 ∧
        Memoize id { isVariadic := false, outs := [GoType.uint] } (liftFn fibFn) [Value.uint 10]
            (NewMemoizer 0) =
          some (Outcome.returned [Value.uint 55],
            { Storage := [("[10]", 0)], heap := [⟨true, [Value.uint 55], none⟩],
              executions := 1, user := 1 }) ∧
        Memoize id { isVariadic := false, outs := [GoType.uint] } (liftFn fibFn) [Value.uint 10]
            { Storage := [("[10]", 0)], heap := [⟨true, [Value.uint 55], none⟩],
              executions := 1, user := 1 } =
          some (Outcome.returned [Value.uint 55],
            { Storage := [("[10]", 0)], heap := [⟨true, [Value.uint 55], none⟩],
              executions := 1, user := 1 })) :=
  ⟨by rfl, second_call_served_from_cache id false [GoType.uint] fibFn [Value.uint 10]
    (NewMemoizer 0)
    { Storage := [("[10]", 0)], heap := [⟨true, [Value.uint 55], none⟩],
      executions := 1, user := 1 } [Value.uint 55] (by rfl)⟩

/-- The statement of C1 with the premise on the memoized function itself: when
its first call returns `r`, so does the second, in the same state. -/
theorem second_call_served_to_caller {σ : Type} (H : String → String) (t : FuncType)
    (f : List Value → σ → Outcome × σ) (args : List Value) (w w1 : World σ) (r : List Value)
    (h : Memoize H t (liftFn f) args w = some (Outcome.returned r, w1)) :
    Memoize H t (liftFn f) args w1 = some (Outcome.returned r, w1) ∧
      w1.executions ≤ w.executions + 1 := by
  obtain ⟨o1, h1, ho⟩ := Memoize_some H t (liftFn f) args w w1 _ h
  cases o1 with
  | returned r1 =>
    obtain ⟨h2, hex⟩ := memoClosure_second_call H t.isVariadic f args w w1 r1 h1
    refine ⟨?_, hex⟩
    rw [Memoize_of_memoClosure H t (liftFn f) args w1 w1 _ h2, ← ho]
  | panicked payload => simp [checkOut] at ho
  | blocked => simp [checkOut] at ho

/-! ### The same for functions that call memoized functions themselves -/

theorem keepsPending_liftFn {σ : Type} (f : List Value → σ → Outcome × σ) :
    KeepsPending (liftFn f) := by
  intro args w w1 o h k p hget hc
  simp only [liftFn, Option.some.injEq, Prod.mk.injEq] at h
  obtain ⟨_, hw⟩ := h
  subst hw
  exact ⟨hget, hc⟩

/-- The memoized version of a function that leaves pending entries alone
leaves them alone too. -/
theorem keepsPending_memoClosure {σ : Type} (H : String → String) (v : Bool) (fn : Fn σ)
    (hfn : KeepsPending fn) : KeepsPending (memoClosure H v fn) := by
  intro args w w1 o h k p hget hc
  cases hg : Get w.Storage (AsSha256 H (keyOf v args)) with
  | some q =>
    obtain ⟨_, _, _, hw⟩ := memoClosure_found H v fn args w w1 q o hg h
    subst hw
    exact ⟨hget, hc⟩
  | none =>
    rw [memoClosure_miss_fn H v fn args w hg] at h
    have hne : AsSha256 H (keyOf v args) ≠ k := by
      intro e
      rw [e, hget] at hg
      exact Option.noConfusion hg
    have hlt : p < w.heap.length := getElem?_lt_length _ _ _ hc
    cases hres : fn args
        { Storage := Set w.Storage (AsSha256 H (keyOf v args)) w.heap.length,
          heap := w.heap ++ [{ waitClosed := false, results := [], panicked := none }],
          executions := w.executions + 1,
          user := w.user } with
    | none =>
      rw [hres] at h
      exact Option.noConfusion h
    | some ow =>
      obtain ⟨o2, w2⟩ := ow
      obtain ⟨hget2, hc2⟩ := hfn args _ w2 o2 hres k p
        (by rw [Get_Set_other _ _ _ _ hne]; exact hget)
        (by
          show (w.heap ++ _)[p]? = _
          rw [List.getElem?_append_left hlt]
          exact hc)
      rw [hres] at h
      cases o2 with
      | returned r =>
        simp only [settle, Option.some.injEq, Prod.mk.injEq] at h
        obtain ⟨_, hw⟩ := h
        subst hw
        exact ⟨hget2, by
          show (updateCall w2.heap w.heap.length _)[p]? = _
          rw [updateCall_get_other _ _ _ _ (by omega)]
          exact hc2⟩
      | panicked payload =>
        simp only [settle, Option.some.injEq, Prod.mk.injEq] at h
        obtain ⟨_, hw⟩ := h
        subst hw
        exact ⟨hget2, by
          show (updateCall w2.heap w.heap.length _)[p]? = _
          rw [updateCall_get_other _ _ _ _ (by omega)]
          exact hc2⟩
      | blocked =>
        simp only [settle, Option.some.injEq, Prod.mk.injEq] at h
        obtain ⟨_, hw⟩ := h
        subst hw
        exact ⟨hget2, hc2⟩

/-- The check of `reflect.MakeFunc` does not touch the state. -/
theorem keepsPending_MakeFunc {σ : Type} (outs : List GoType) (body : Fn σ)
    (hbody : KeepsPending body) : KeepsPending (MakeFunc outs body) := by
  intro args w w1 o h k p hget hc
  obtain ⟨o1, h1, _⟩ := MakeFunc_some outs body args w w1 o h
  exact hbody args w w1 o1 h1 k p hget hc

/-- The body of `concat` leaves pending entries alone when the function it
calls does. -/
theorem keepsPending_concat (self : Fn Nat) (hself : KeepsPending self) :
    KeepsPending (concat self) := by
  intro args w w1 o h k p hget hc
  unfold concat at h
  split at h
  · simp only [Option.some.injEq, Prod.mk.injEq] at h
    obtain ⟨_, hw⟩ := h
    subst hw
    exact ⟨hget, hc⟩
  · simp only [Option.some.injEq, Prod.mk.injEq] at h
    obtain ⟨_, hw⟩ := h
    subst hw
    exact ⟨hget, hc⟩
  · exact hself _ _ w1 o h k p hget hc
  · exact Option.noConfusion h

/-- The memoized recursive `concat` leaves pending entries alone. -/
theorem keepsPending_concatMemo (H : String → String) :
    ∀ fuel, KeepsPending (concatMemo H fuel) := by
  intro fuel
  induction fuel with
  | zero =>
    intro args w w1 o h
    exact Option.noConfusion h
  | succ n ih =>
    exact keepsPending_MakeFunc _ _ (keepsPending_memoClosure H true _ (keepsPending_concat _ ih))

/-- The statement of C1 for every wrapped function that leaves pending entries
alone, recursion through memoized functions included: when a call returns
normally with results `r`, the next call with the same arguments returns `r`
and leaves the state, execution counter included, as it was. -/
theorem second_call_served_reentrant {σ : Type} (H : String → String) (v : Bool) (fn : Fn σ)
    (hfn : KeepsPending fn) (args : List Value) (w w1 : World σ) (r : List Value)
    (h : memoClosure H v fn args w = some (Outcome.returned r, w1)) :
    memoClosure H v fn args w1 = some (Outcome.returned r, w1) := by
  cases hg : Get w.Storage (AsSha256 H (keyOf v args)) with
  | some p =>
    obtain ⟨c, hc, ho, hw⟩ := memoClosure_found H v fn args w w1 p _ hg h
    subst hw
    rw [memoClosure_hit H v fn args w1 p c hg hc, ← ho]
  | none =>
    rw [memoClosure_miss_fn H v fn args w hg] at h
    cases hres : fn args
        { Storage := Set w.Storage (AsSha256 H (keyOf v args)) w.heap.length,
          heap := w.heap ++ [{ waitClosed := false, results := [], panicked := none }],
          executions := w.executions + 1,
          user := w.user } with
    | none =>
      rw [hres] at h
      exact Option.noConfusion h
    | some ow =>
      obtain ⟨o2, w2⟩ := ow
      obtain ⟨hget2, hc2⟩ := hfn args _ w2 o2 hres (AsSha256 H (keyOf v args)) w.heap.length
        (Get_Set_self _ _ _) (by simp)
      rw [hres] at h
      cases o2 with
      | returned r2 =>
        simp only [settle, Option.some.injEq, Prod.mk.injEq, Outcome.returned.injEq] at h
        obtain ⟨hr, hw⟩ := h
        subst hw
        subst hr
        have hcell := updateCall_get_self w2.heap w.heap.length
          (fun c => { c with results := r2, waitClosed := true }) _ hc2
        have hhit := memoClosure_hit H v fn args
          { Storage := w2.Storage,
            heap := updateCall w2.heap w.heap.length (fun c => { c with results := r2, waitClosed := true }),
            executions := w2.executions,
            user := w2.user }
          w.heap.length _ hget2 hcell
        exact hhit
      | panicked payload =>
        simp [settle] at h
      | blocked =>
        simp [settle] at h

/-- An instance of `second_call_served_reentrant`: the memoized recursive
`concat` called twice with ("string"; "one"). -/
theorem second_call_served_reentrant_witness :
    memoClosure id true (concat (concatMemo id 2)) (concatArgs "string" ["one"])
        { Storage := [("[stringone []]", 1), ("[string [one]]", 0)],
          heap := [⟨true, [Value.str "stringone"], none⟩, ⟨true, [Value.str "stringone"], none⟩],
          executions := 2, user := 2 } =
      some (Outcome.returned [Value.str "stringone"],
        { Storage := [("[stringone []]", 1), ("[string [one]]", 0)],
          heap := [⟨true, [Value.str "stringone"], none⟩, ⟨true, [Value.str "stringone"], none⟩],
          executions := 2, user := 2 }) :=
  second_call_served_reentrant id true (concat (concatMemo id 2))
    (keepsPending_concat _ (keepsPending_concatMemo id 2)) (concatArgs "string" ["one"])
    (NewMemoizer 0) _ [Value.str "stringone"] (by rfl)

/-! ## C6: no trailing arguments and an empty trailing slice -/

/-- Claim C6. For a variadic function and any leading arguments, the call with
no trailing arguments (a nil trailing slice) and the call with an empty
trailing slice derive the same key. On a memoizer that holds no entry under
that key, whichever of the two calls comes first executes the wrapped function
once, and the other one, made next, is served from that entry: it gets the
replay of the first outcome and leaves the state, execution counter included,
as it was. This is so for the function literal and, for every list `outs` of
result types, for the memoized function that `reflect.MakeFunc` makes of it,
where each outcome is passed through the check of the results. -/
theorem variadic_empty_trailing_collide {σ : Type} (H : String → String)
    (outs : List GoType)
    (f : List Value → σ → Outcome × σ) (leading : List Value) (w : World σ)
    (hmiss : Get w.Storage (AsSha256 H (keyOf true (leading ++ [Value.nilSlice]))) = none) :
    AsSha256 H (keyOf true (leading ++ [Value.nilSlice])) =
        AsSha256 H (keyOf true (leading ++ [Value.slice []])) ∧
      (∃ w1, memoClosure H true (liftFn f) (leading ++ [Value.nilSlice]) w =
            some ((f (leading ++ [Value.nilSlice]) w.user).1, w1) ∧
          w1.executions = w.executions + 1 ∧
          memoClosure H true (liftFn f) (leading ++ [Value.slice []]) w1 =
            some (replayOf (f (leading ++ [Value.nilSlice]) w.user).1, w1) ∧
          Memoize H { isVariadic := true, outs := outs } (liftFn f)
              (leading ++ [Value.nilSlice]) w =
            some (checkOut outs (f (leading ++ [Value.nilSlice]) w.user).1, w1) ∧
          Memoize H { isVariadic := true, outs := outs } (liftFn f)
              (leading ++ [Value.slice []]) w1 =
            some (checkOut outs (replayOf (f (leading ++ [Value.nilSlice]) w.user).1), w1)) ∧
      (∃ w1, memoClosure H true (liftFn f) (leading ++ [Value.slice []]) w =
            some ((f (leading ++ [Value.slice []]) w.user).1, w1) ∧
          w1.executions = w.executions + 1 ∧
          memoClosure H true (liftFn f) (leading ++ [Value.nilSlice]) w1 =
            some (replayOf (f (leading ++ [Value.slice []]) w.user).1, w1) ∧
          Memoize H { isVariadic := true, outs := outs } (liftFn f)
              (leading ++ [Value.slice []]) w =
            some (checkOut outs (f (leading ++ [Value.slice []]) w.user).1, w1) ∧
          Memoize H { isVariadic := true, outs := outs } (liftFn f)
              (leading ++ [Value.nilSlice]) w1 =
            some (checkOut outs (replayOf (f (leading ++ [Value.slice []]) w.user).1), w1)) := by
  have hkey : keyOf true (leading ++ [Value.nilSlice]) =
      keyOf true (leading ++ [Value.slice []]) := by
    rw [keyOf_append_last, keyOf_append_last]
    simp [variadicArray]
  refine ⟨by rw [hkey], ?_, ?_⟩
  · obtain ⟨w1, h1, hex, _, hget, hheap⟩ :=
      memoClosure_miss_then_hit H true f (leading ++ [Value.nilSlice]) w hmiss
    rw [hkey] at hget
    have h2 : memoClosure H true (liftFn f) (leading ++ [Value.slice []]) w1 =
        some (replayOf (f (leading ++ [Value.nilSlice]) w.user).1, w1) := by
      rw [memoClosure_hit H true (liftFn f) (leading ++ [Value.slice []]) w1 w.heap.length
        (recordOf (f (leading ++ [Value.nilSlice]) w.user).1) hget (by simp [hheap]),
        readCall_recordOf]
    exact ⟨w1, h1, hex, h2,
      Memoize_of_memoClosure H { isVariadic := true, outs := outs } (liftFn f) _ w w1 _ h1,
      Memoize_of_memoClosure H { isVariadic := true, outs := outs } (liftFn f) _ w1 w1 _ h2⟩
  · rw [hkey] at hmiss
    obtain ⟨w1, h1, hex, _, hget, hheap⟩ :=
      memoClosure_miss_then_hit H true f (leading ++ [Value.slice []]) w hmiss
    rw [← hkey] at hget
    have h2 : memoClosure H true (liftFn f) (leading ++ [Value.nilSlice]) w1 =
        some (replayOf (f (leading ++ [Value.slice []]) w.user).1, w1) := by
      rw [memoClosure_hit H true (liftFn f) (leading ++ [Value.nilSlice]) w1 w.heap.length
        (recordOf (f (leading ++ [Value.slice []]) w.user).1) hget (by simp [hheap]),
        readCall_recordOf]
    exact ⟨w1, h1, hex, h2,
      Memoize_of_memoClosure H { isVariadic := true, outs := outs } (liftFn f) _ w w1 _ h1,
      Memoize_of_memoClosure H { isVariadic := true, outs := outs } (liftFn f) _ w1 w1 _ h2⟩

/-- Witness for C6: one leading string and a string result, on a fresh
memoizer. -/
theorem variadic_empty_trailing_collide_witness :
    Get (NewMemoizer 0).Storage (AsSha256 id (keyOf true ([Value.str "s"] ++ [Value.nilSlice]))) = none ∧
    (AsSha256 id (keyOf true ([Value.str "s"] ++ [Value.nilSlice])) =
        AsSha256 id (keyOf true ([Value.str "s"] ++ [Value.slice []])) ∧
      (∃ w1, memoClosure id true (liftFn firstArgFn) ([Value.str "s"] ++ [Value.nilSlice]) (NewMemoizer 0) =
            some ((firstArgFn ([Value.str "s"] ++ [Value.nilSlice]) (NewMemoizer 0).user).1, w1) ∧
          w1.executions = (NewMemoizer 0).executions + 1 ∧
          memoClosure id true (liftFn firstArgFn) ([Value.str "s"] ++ [Value.slice []]) w1 =
            some (replayOf (firstArgFn ([Value.str "s"] ++ [Value.nilSlice]) (NewMemoizer 0).user).1, w1) ∧
          Memoize id { isVariadic := true, outs := [GoType.string] } (liftFn firstArgFn)
              ([Value.str "s"] ++ [Value.nilSlice]) (NewMemoizer 0) =
            some (Outcome.returned [Value.str "s"], w1) ∧
          Memoize id { isVariadic := true, outs := [GoType.string] } (liftFn firstArgFn)
              ([Value.str "s"] ++ [Value.slice []]) w1 =
            some (Outcome.returned [Value.str "s"], w1)) ∧
      (∃ w1, memoClosure id true (liftFn firstArgFn) ([Value.str "s"] ++ [Value.slice []]) (NewMemoizer 0) =
            some ((firstArgFn ([Value.str "s"] ++ [Value.slice []]) (NewMemoizer 0).user).1, w1) ∧
          w1.executions = (NewMemoizer 0).executions + 1 ∧
          memoClosure id true (liftFn firstArgFn) ([Value.str "s"] ++ [Value.nilSlice]) w1 =
            some (replayOf (firstArgFn ([Value.str "s"] ++ [Value.slice []]) (NewMemoizer 0).user).1, w1) ∧
          Memoize id { isVariadic := true, outs := [GoType.string] } (liftFn firstArgFn)
              ([Value.str "s"] ++ [Value.slice []]) (NewMemoizer 0) =
            some (Outcome.returned [Value.str "s"], w1) ∧
          Memoize id { isVariadic := true, outs := [GoType.string] } (liftFn firstArgFn)
              ([Value.str "s"] ++ [Value.nilSlice]) w1 =
            some (Outcome.returned [Value.str "s"], w1))) :=
  ⟨by rfl,
    variadic_empty_trailing_collide id [GoType.string] firstArgFn [Value.str "s"] (NewMemoizer 0)
      (by rfl)⟩

/-! ## C9: the key does not depend on the wrapped function -/

/-- The record an executor leaves: when the function literal finds no entry,
runs a wrapped function that leaves pending entries alone and comes to an end,
the key is bound to the new record and the record holds the outcome. -/
theorem memoClosure_executor_record {σ : Type} (H : String → String) (v : Bool) (fn : Fn σ)
    (hfn : KeepsPending fn) (args : List Value) (w w1 : World σ) (o : Outcome)
    (hmiss : Get w.Storage (AsSha256 H (keyOf v args)) = none)
    (hcall : memoClosure H v fn args w = some (o, w1)) (hend : o ≠ Outcome.blocked) :
    Get w1.Storage (AsSha256 H (keyOf v args)) = some w.heap.length ∧
      w1.heap[w.heap.length]? = some (recordOf o) := by
  rw [memoClosure_miss_fn H v fn args w hmiss] at hcall
  cases hres : fn args
      { Storage := Set w.Storage (AsSha256 H (keyOf v args)) w.heap.length,
        heap := w.heap ++ [{ waitClosed := false, results := [], panicked := none }],
        executions := w.executions + 1,
        user := w.user } with
  | none =>
    rw [hres] at hcall
    exact Option.noConfusion hcall
  | some ow =>
    obtain ⟨o2, w2⟩ := ow
    obtain ⟨hget2, hc2⟩ := hfn args _ w2 o2 hres (AsSha256 H (keyOf v args)) w.heap.length
      (Get_Set_self _ _ _) (by simp)
    rw [hres] at hcall
    cases o2 with
    | returned r =>
      simp only [settle, Option.some.injEq, Prod.mk.injEq] at hcall
      obtain ⟨ho, hw⟩ := hcall
      subst hw
      subst ho
      exact ⟨hget2, updateCall_get_self w2.heap w.heap.length _ _ hc2⟩
    | panicked payload =>
      simp only [settle, Option.some.injEq, Prod.mk.injEq] at hcall
      obtain ⟨ho, hw⟩ := hcall
      subst hw
      subst ho
      exact ⟨hget2, updateCall_get_self w2.heap w.heap.length _ _ hc2⟩
    | blocked =>
      simp only [settle, Option.some.injEq, Prod.mk.injEq] at hcall
      exact absurd hcall.1.symm hend

theorem replayOf_of_not_nil_panic (o : Outcome) (h : o ≠ Outcome.panicked Value.nil) :
    replayOf o = o := by
  cases o with
  | returned r => rfl
  | panicked payload =>
    have hp : payload ≠ Value.nil := fun e => h (by rw [e])
    simp [replayOf, hp]
  | blocked => rfl

/-- Claim C9, as the code has it. The key is the digest of the rendered
arguments, whatever the wrapped function. Let the memoized `f`, of type `tf`
and leaving pending entries alone (it may call memoized functions itself), be
called with `a` on a memoizer that holds no entry under the key of `a`, and
let the call end with outcome `o`, results of the result types of `f` or a
panic with a payload other than nil. Then a call of any memoized `g`, of any
type `tg`, with arguments `b` whose key array renders to the same text derives
the same key and, in any later state of the run, is a hit on the entry `f`
left, whatever `g` is: the state, execution counter included, stays as it was;
the function literal of `g` ends with `o`; and the call of the memoized `g`
ends with `o` passed through the check of `reflect.MakeFunc` against the
result types of `g`: the panic of `f` again, or the results of `f` when they
are as many as the results of `g` and assignable to their types, and a panic
of package reflect when they are not. -/
theorem cache_hit_across_functions {σ : Type} (H : String → String) (tf tg : FuncType)
    (f : Fn σ) (a b : List Value) (w w1 : World σ) (o : Outcome)
    (hkeep : KeepsPending f)
    (hmiss : Get w.Storage (AsSha256 H (keyOf tf.isVariadic a)) = none)
    (hrender : fmtSprintfV (keyOf tg.isVariadic b) = fmtSprintfV (keyOf tf.isVariadic a))
    (hcall : memoClosure H tf.isVariadic f a w = some (o, w1))
    (htyped : checkOut tf.outs o = o)
    (hend : o ≠ Outcome.blocked)
    (hpayload : o ≠ Outcome.panicked Value.nil) :
    AsSha256 H (keyOf tg.isVariadic b) = AsSha256 H (keyOf tf.isVariadic a) ∧
      Memoize H tf f a w = some (o, w1) ∧
      ∀ w2, Later H w1 w2 → ∀ g : Fn σ,
        memoClosure H tg.isVariadic g b w2 = some (o, w2) ∧
        Memoize H tg g b w2 = some (checkOut tg.outs o, w2) := by
  have hkey : AsSha256 H (keyOf tg.isVariadic b) = AsSha256 H (keyOf tf.isVariadic a) := by
    unfold AsSha256
    rw [hrender]
  obtain ⟨hget, hcell⟩ :=
    memoClosure_executor_record H tf.isVariadic f hkeep a w w1 o hmiss hcall hend
  have hf : Memoize H tf f a w = some (o, w1) := by
    rw [Memoize_of_memoClosure H tf f a w w1 o hcall, htyped]
  refine ⟨hkey, hf, fun w2 hl g => ?_⟩
  rw [← hkey] at hget
  obtain ⟨hget2, hc2⟩ := entry_stable H w1 w2 hl _ _ (recordOf o) hget hcell
  have hg : memoClosure H tg.isVariadic g b w2 = some (o, w2) := by
    rw [memoClosure_hit H tg.isVariadic g b w2 w.heap.length (recordOf o) hget2 hc2,
      readCall_recordOf, replayOf_of_not_nil_panic o hpayload]
  exact ⟨hg, Memoize_of_memoClosure H tg g b w2 w2 o hg⟩

/-- Witness for C9: `fib` called with the number 10, then a function from a
string to a `uint64` called with the string "10". -/
theorem cache_hit_across_functions_witness :
    KeepsPending (liftFn fibFn) ∧
    Get (NewMemoizer 0 : World Nat).Storage (AsSha256 id (keyOf false [Value.uint 10])) = none ∧
    fmtSprintfV (keyOf false [Value.str "10"]) = fmtSprintfV (keyOf false [Value.uint 10]) ∧
    memoClosure id false (liftFn fibFn) [Value.uint 10] (NewMemoizer 0) =
      some (Outcome.returned [Value.uint 55],
        { Storage := [("[10]", 0)], heap := [⟨true, [Value.uint 55], none⟩],
          executions := 1, user := 1 }) ∧
    checkOut [GoType.uint] (Outcome.returned [Value.uint 55]) =
      Outcome.returned [Value.uint 55] ∧
    Outcome.returned [Value.uint 55] ≠ Outcome.blocked ∧
    Outcome.returned [Value.uint 55] ≠ Outcome.panicked Value.nil ∧
    (AsSha256 id (keyOf false [Value.str "10"]) = AsSha256 id (keyOf false [Value.uint 10]) ∧
      Memoize id { isVariadic := false, outs := [GoType.uint] } (liftFn fibFn) [Value.uint 10]
          (NewMemoizer 0) =
        some (Outcome.returned [Value.uint 55],
          { Storage := [("[10]", 0)], heap := [⟨true, [Value.uint 55], none⟩],
            executions := 1, user := 1 }) ∧
      ∀ w2, Later id
          { Storage := [("[10]", 0)], heap := [⟨true, [Value.uint 55], none⟩],
            executions := 1, user := 1 } w2 → ∀ g : Fn Nat,
        memoClosure id false g [Value.str "10"] w2 =
          some (Outcome.returned [Value.uint 55], w2) ∧
        Memoize id { isVariadic := false, outs := [GoType.uint] } g [Value.str "10"] w2 =
          some (Outcome.returned [Value.uint 55], w2)) :=
  ⟨keepsPending_liftFn fibFn, by rfl, by rfl, by rfl, by rfl, by simp, by simp,
    cache_hit_across_functions id { isVariadic := false, outs := [GoType.uint] }
      { isVariadic := false, outs := [GoType.uint] } (liftFn fibFn) [Value.uint 10]
      [Value.str "10"] (NewMemoizer 0)
      { Storage := [("[10]", 0)], heap := [⟨true, [Value.uint 55], none⟩],
        executions := 1, user := 1 } (Outcome.returned [Value.uint 55])
      (keepsPending_liftFn fibFn) (by rfl) (by rfl) (by rfl) (by rfl) (by simp) (by simp)⟩

/-- Claim C9 as stated fails on the code in two ways. After `fib(10)` has
returned 55, the call `g("10")` of a memoized function from a string to a
string hits the entry of `fib`, and the memoized function does not return the
recorded result: it panics inside `reflect.MakeFunc`, a `uint64` not being
assignable to a string. And after `f(nil)` has panicked with nil, the call
`g(nil)` of a memoized function without results hits the entry of `f` and
returns normally; it does not replay the panic. -/
theorem cross_function_hit_not_returned :
    Memoize id { isVariadic := false, outs := [GoType.uint] } (liftFn fibFn) [Value.uint 10]
        (NewMemoizer 0) =
      some (Outcome.returned [Value.uint 55],
        { Storage := [("[10]", 0)], heap := [⟨true, [Value.uint 55], none⟩],
          executions := 1, user := 1 }) ∧
    fmtSprintfV (keyOf false [Value.str "10"]) = fmtSprintfV (keyOf false [Value.uint 10]) ∧
    Memoize id { isVariadic := false, outs := [GoType.string] } (liftFn firstArgFn)
        [Value.str "10"]
        { Storage := [("[10]", 0)], heap := [⟨true, [Value.uint 55], none⟩],
          executions := 1, user := 1 } =
      some (Outcome.panicked notAssignable,
        { Storage := [("[10]", 0)], heap := [⟨true, [Value.uint 55], none⟩],
          executions := 1, user := 1 }) ∧
    Memoize id { isVariadic := false, outs := [] } (liftFn panicArgFn) [Value.nil]
        (NewMemoizer 0) =
      some (Outcome.panicked Value.nil,
        { Storage := [("[<nil>]", 0)], heap := [⟨true, [], none⟩],
          executions := 1, user := 1 }) ∧
    Memoize id { isVariadic := false, outs := [] } (liftFn noResultFn) [Value.nil]
        { Storage := [("[<nil>]", 0)], heap := [⟨true, [], none⟩],
          executions := 1, user := 1 } =
      some (Outcome.returned [],
        { Storage := [("[<nil>]", 0)], heap := [⟨true, [], none⟩],
          executions := 1, user := 1 }) :=
  ⟨by rfl, by rfl, by rfl, by rfl, by rfl⟩

/-! ## C10: a nil panic payload -/

theorem checkOut_returned_nil (outs : List GoType) :
    checkOut outs (Outcome.returned []) =
      (match outs with
        | [] => Outcome.returned []
        | _ :: _ => Outcome.panicked wrongReturnCount) := by
  cases outs with
  | nil => rfl
  | cons t ts => simp [checkOut]

/-- Claim C10. When the executor recovers a nil payload (the wrapped function
called `panic(nil)` and `recover` returned nil), the executor panics with nil,
and the record it leaves has its channel closed, no results and the zero
Value as captured failure: the state is the very state that a wrapped function
returning normally with no results would have left. For every call with the
same arguments in any later state of the run, whatever the wrapped function
is, the function literal takes the path that returns the recorded results
(line 116), with the empty result list, and not the path that panics (line
114), and the state, execution counter included, stays as it was. For the
caller of the memoized function this is a normal return when the function has
no results, and a panic of `reflect.MakeFunc` for the wrong number of results
when it has some. -/
theorem nil_panic_recorded_as_return {σ : Type} (H : String → String) (t : FuncType)
    (f : List Value → σ → Outcome × σ) (args : List Value) (w : World σ)
    (hmiss : Get w.Storage (AsSha256 H (keyOf t.isVariadic args)) = none)
    (hnil : (f args w.user).1 = Outcome.panicked Value.nil) :
    ∃ w1, memoClosure H t.isVariadic (liftFn f) args w = some (Outcome.panicked Value.nil, w1) ∧
      Memoize H t (liftFn f) args w = some (Outcome.panicked Value.nil, w1) ∧
      w1.heap = w.heap ++ [{ waitClosed := true, results := [], panicked := none }] ∧
      Get w1.Storage (AsSha256 H (keyOf t.isVariadic args)) = some w.heap.length ∧
      memoClosure H t.isVariadic (liftFn (fun x s => (Outcome.returned [], (f x s).2))) args w =
        some (Outcome.returned [], w1) ∧
      ∀ w2, Later H w1 w2 → ∀ g : Fn σ,
        memoClosure H t.isVariadic g args w2 = some (Outcome.returned [], w2) ∧
        Memoize H t g args w2 =
          some ((match t.outs with
            | [] => Outcome.returned []
            | _ :: _ => Outcome.panicked wrongReturnCount), w2) := by
  obtain ⟨w1, h1, _, _, hget, hheap⟩ := memoClosure_miss_then_hit H t.isVariadic f args w hmiss
  have hrec : recordOf (f args w.user).1 =
      { waitClosed := true, results := [], panicked := none } := by
    rw [hnil]
    simp [recordOf, reflectValueOf]
  rw [hrec] at hheap
  rw [hnil] at h1
  refine ⟨w1, h1, Memoize_of_memoClosure H t (liftFn f) args w w1 _ h1, hheap, hget, ?_,
    fun w2 hl g => ?_⟩
  · rw [memoClosure_miss H t.isVariadic _ args w hmiss]
    rw [memoClosure_miss H t.isVariadic f args w hmiss] at h1
    simp only [Option.some.injEq, Prod.mk.injEq] at h1
    rw [← h1.2, hnil]
    rfl
  · obtain ⟨hget2, hc2⟩ := entry_stable H w1 w2 hl _ _
      { waitClosed := true, results := [], panicked := none } hget (by simp [hheap])
    have hg : memoClosure H t.isVariadic g args w2 = some (Outcome.returned [], w2) := by
      rw [memoClosure_hit H t.isVariadic g args w2 w.heap.length
        { waitClosed := true, results := [], panicked := none } hget2 hc2]
      rfl
    refine ⟨hg, ?_⟩
    rw [Memoize_of_memoClosure H t g args w2 w2 _ hg, checkOut_returned_nil]

/-- Witness for C10: a function without results that panics with its argument,
called with nil. -/
theorem nil_panic_recorded_as_return_witness :
    Get (NewMemoizer 0 : World Nat).Storage (AsSha256 id (keyOf false [Value.nil])) = none ∧
    (panicArgFn [Value.nil] (NewMemoizer 0).user).1 = Outcome.panicked Value.nil ∧
    ∃ w1, memoClosure id false (liftFn panicArgFn) [Value.nil] (NewMemoizer 0) =
        some (Outcome.panicked Value.nil, w1) ∧
      Memoize id { isVariadic := false, outs := [] } (liftFn panicArgFn) [Value.nil]
          (NewMemoizer 0) = some (Outcome.panicked Value.nil, w1) ∧
      w1.heap = (NewMemoizer 0).heap ++ [{ waitClosed := true, results := [], panicked := none }] ∧
      Get w1.Storage (AsSha256 id (keyOf false [Value.nil])) = some (NewMemoizer 0).heap.length ∧
      memoClosure id false (liftFn (fun x s => (Outcome.returned [], (panicArgFn x s).2)))
          [Value.nil] (NewMemoizer 0) = some (Outcome.returned [], w1) ∧
      ∀ w2, Later id w1 w2 → ∀ g : Fn Nat,
        memoClosure id false g [Value.nil] w2 = some (Outcome.returned [], w2) ∧
        Memoize id { isVariadic := false, outs := [] } g [Value.nil] w2 =
          some (Outcome.returned [], w2) :=
  ⟨by rfl, by rfl,
    nil_panic_recorded_as_return id { isVariadic := false, outs := [] } panicArgFn [Value.nil]
      (NewMemoizer 0) (by rfl) (by rfl)⟩

/-- The caller of a function with a result after a nil panic: the function
`func(x interface{}) int` that panics with its argument, called twice with
nil. The second call does not return; `reflect.MakeFunc` panics, the function
literal having handed back no result where one is due. -/
theorem nil_panic_then_wrong_return_count :
    Memoize id { isVariadic := false, outs := [GoType.int] } (liftFn panicArgFn) [Value.nil]
        (NewMemoizer 0) =
      some (Outcome.panicked Value.nil,
        { Storage := [("[<nil>]", 0)], heap := [⟨true, [], none⟩],
          executions := 1, user := 1 }) ∧
    Memoize id { isVariadic := false, outs := [GoType.int] } (liftFn panicArgFn) [Value.nil]
        { Storage := [("[<nil>]", 0)], heap := [⟨true, [], none⟩],
          executions := 1, user := 1 } =
      some (Outcome.panicked wrongReturnCount,
        { Storage := [("[<nil>]", 0)], heap := [⟨true, [], none⟩],
          executions := 1, user := 1 }) :=
  ⟨by rfl, by rfl⟩

/-! ## C4: value-unequal argument tuples with one key -/

/-- The part of C4 that the code does meet. With a digest that has no
collisions, two key arrays get the same key exactly when they render to the
same text. -/
theorem key_eq_iff_rendering_eq (H : String → String) (hinj : Function.Injective H)
    (a b : Value) :
    AsSha256 H a = AsSha256 H b ↔ fmtSprintfV a = fmtSprintfV b :=
  hinj.eq_iff

/-- Claim C4, evaluated on the code. Two value-unequal argument tuples of a
function of two strings, and two calls of a variadic function with one and with
two trailing arguments, render to the same text, so they get the same key
whatever the digest is. -/
theorem unequal_tuples_share_key :
    [Value.str "a b", Value.str "c"] ≠ [Value.str "a", Value.str "b c"] ∧
    (∀ H : String → String,
      AsSha256 H (keyOf false [Value.str "a b", Value.str "c"]) =
        AsSha256 H (keyOf false [Value.str "a", Value.str "b c"])) ∧
    [Value.str "b c"].length ≠ [Value.str "b", Value.str "c"].length ∧
    (∀ H : String → String,
      AsSha256 H (keyOf true [Value.str "a", Value.slice [Value.str "b c"]]) =
        AsSha256 H (keyOf true [Value.str "a", Value.slice [Value.str "b", Value.str "c"]])) :=
  ⟨by decide, fun _ => rfl, by decide, fun _ => rfl⟩

/-! ## C3: a call served with the results of another argument tuple -/

theorem callSeq_cons_returned {σ : Type} (m : Fn σ) (a : List Value) (rest : List (List Value))
    (w w1 w2 : World σ) (r : List Value) (os : List (Outcome × σ))
    (h1 : m a w = some (Outcome.returned r, w1)) (h2 : callSeq m rest w1 = some (os, w2)) :
    callSeq m (a :: rest) w = some ((Outcome.returned r, w1.user) :: os, w2) := by
  simp only [callSeq, h1, h2]

/-- Sequential calls of a memoized pure function, from a state in which every
entry holds the results of the function for an argument tuple of `seen`. -/
theorem pure_sequence_from (H : String → String) (v : Bool) (outs : List GoType)
    (fn : List Value → List Value)
    (htyped : ∀ a, checkOut outs (Outcome.returned (fn a)) = Outcome.returned (fn a)) :
    ∀ (calls seen : List (List Value)) (w : World Unit),
      (∀ k p, Get w.Storage k = some p →
        ∃ a ∈ seen, k = AsSha256 H (keyOf v a) ∧
          w.heap[p]? = some (recordOf (Outcome.returned (fn a)))) →
      (∀ a ∈ seen ++ calls, ∀ b ∈ seen ++ calls,
        AsSha256 H (keyOf v a) = AsSha256 H (keyOf v b) → a = b) →
      ∃ w1, callSeq (Memoize H { isVariadic := v, outs := outs } (liftFn (pureFn fn))) calls w =
        some (calls.map (fun a => (Outcome.returned (fn a), ())), w1) := by
  intro calls
  induction calls with
  | nil =>
    intro seen w _ _
    exact ⟨w, rfl⟩
  | cons a rest ih =>
    intro seen w hinv hdist
    have hdist1 : ∀ x ∈ (a :: seen) ++ rest, ∀ y ∈ (a :: seen) ++ rest,
        AsSha256 H (keyOf v x) = AsSha256 H (keyOf v y) → x = y := by
      intro x hx y hy
      apply hdist x _ y _
      · simp only [List.cons_append, List.mem_cons, List.mem_append] at hx ⊢
        tauto
      · simp only [List.cons_append, List.mem_cons, List.mem_append] at hy ⊢
        tauto
    cases hg : Get w.Storage (AsSha256 H (keyOf v a)) with
    | none =>
      have h1 := Memoize_of_memoClosure H { isVariadic := v, outs := outs } _ a w _ _
        (memoClosure_miss H v (pureFn fn) a w hg)
      rw [show (pureFn fn a w.user).1 = Outcome.returned (fn a) from rfl, htyped a] at h1
      have hinv1 : ∀ k p,
          Get (Set w.Storage (AsSha256 H (keyOf v a)) w.heap.length) k = some p →
          ∃ x ∈ a :: seen, k = AsSha256 H (keyOf v x) ∧
            (w.heap ++ [recordOf (pureFn fn a w.user).1])[p]? =
              some (recordOf (Outcome.returned (fn x))) := by
        intro k p hk
        by_cases hka : AsSha256 H (keyOf v a) = k
        · subst hka
          rw [Get_Set_self] at hk
          simp only [Option.some.injEq] at hk
          subst hk
          exact ⟨a, List.mem_cons_self _ _, rfl, by simp [pureFn]⟩
        · rw [Get_Set_other _ _ _ _ hka] at hk
          obtain ⟨x, hx, hkx, hcell⟩ := hinv k p hk
          have hlt : p < w.heap.length := by
            rcases Nat.lt_or_ge p w.heap.length with h | h
            · exact h
            · rw [List.getElem?_eq_none h] at hcell
              exact Option.noConfusion hcell
          exact ⟨x, List.mem_cons_of_mem _ hx, hkx, by
            rw [List.getElem?_append_left hlt]; exact hcell⟩
      obtain ⟨w2, h2⟩ := ih (a :: seen)
        { Storage := Set w.Storage (AsSha256 H (keyOf v a)) w.heap.length,
          heap := w.heap ++ [recordOf (pureFn fn a w.user).1],
          executions := w.executions + 1,
          user := (pureFn fn a w.user).2 } hinv1 hdist1
      exact ⟨w2, callSeq_cons_returned _ a rest w _ w2 (fn a) _ h1 h2⟩
    | some p =>
      obtain ⟨x, hx, hkx, hcell⟩ := hinv _ p hg
      have hxa : a = x := hdist a (by simp) x (by simp [hx]) hkx
      subst hxa
      have h0 := memoClosure_hit H v (liftFn (pureFn fn)) a w p _ hg hcell
      rw [readCall_recordOf] at h0
      have h1 := Memoize_of_memoClosure H { isVariadic := v, outs := outs } _ a w w _ h0
      rw [show replayOf (Outcome.returned (fn a)) = Outcome.returned (fn a) from rfl,
        htyped a] at h1
      have hinv1 : ∀ k q, Get w.Storage k = some q →
          ∃ y ∈ a :: seen, k = AsSha256 H (keyOf v y) ∧
            w.heap[q]? = some (recordOf (Outcome.returned (fn y))) := by
        intro k q hk
        obtain ⟨y, hy, hky, hc⟩ := hinv k q hk
        exact ⟨y, List.mem_cons_of_mem _ hy, hky, hc⟩
      obtain ⟨w2, h2⟩ := ih (a :: seen) w hinv1 hdist1
      exact ⟨w2, callSeq_cons_returned _ a rest w w w2 (fn a) _ h1 h2⟩

/-- The part of C3 that the code does meet. For a deterministic function
without side effects, whose results are of its result types, and a finite
sequence of calls of the memoized function on a fresh memoizer in which no two
different argument tuples get the same key, every call returns exactly what
the function returns for its arguments. -/
theorem pure_sequence_refines (H : String → String) (v : Bool) (outs : List GoType)
    (fn : List Value → List Value) (calls : List (List Value))
    (htyped : ∀ a, checkOut outs (Outcome.returned (fn a)) = Outcome.returned (fn a))
    (hdist : ∀ a ∈ calls, ∀ b ∈ calls,
      AsSha256 H (keyOf v a) = AsSha256 H (keyOf v b) → a = b) :
    (callSeq (Memoize H { isVariadic := v, outs := outs } (liftFn (pureFn fn))) calls
        (NewMemoizer ())).map (fun x => x.1) =
      some (calls.map (fun a => (Outcome.returned (fn a), ()))) := by
  obtain ⟨w1, h⟩ := pure_sequence_from H v outs fn htyped calls [] (NewMemoizer ())
    (fun k p hk => by simp [NewMemoizer, Get] at hk)
    (by simpa using hdist)
  rw [h]
  rfl

/-- Claim C3, evaluated on the code. The function that returns its first
argument, `func(a, b string) string`, is deterministic and has no side
effects. Memoized on a fresh memoizer and called with ("a b", "c") and then
with ("a", "b c"), the second call returns "a b", the result of the first,
where the function itself returns "a"; this holds whatever the digest is, for
the function literal and for the memoized function that `reflect.MakeFunc`
makes of it. -/
theorem second_tuple_gets_first_result :
    (∀ H : String → String,
      (callSeq (memoClosure H false (liftFn (pureFn (List.take 1))))
          [[Value.str "a b", Value.str "c"], [Value.str "a", Value.str "b c"]]
          (NewMemoizer ())).map (fun x => x.1) =
        some [(Outcome.returned [Value.str "a b"], ()), (Outcome.returned [Value.str "a b"], ())]) ∧
    (∀ H : String → String,
      (callSeq (Memoize H { isVariadic := false, outs := [GoType.string] }
            (liftFn (pureFn (List.take 1))))
          [[Value.str "a b", Value.str "c"], [Value.str "a", Value.str "b c"]]
          (NewMemoizer ())).map (fun x => x.1) =
        some [(Outcome.returned [Value.str "a b"], ()), (Outcome.returned [Value.str "a b"], ())]) ∧
    (pureFn (List.take 1) [Value.str "a", Value.str "b c"] ()).1 =
      Outcome.returned [Value.str "a"] := by
  have h1 : ∀ H : String → String,
      memoClosure H false (liftFn (pureFn (List.take 1))) [Value.str "a b", Value.str "c"]
        (NewMemoizer ()) =
      some (Outcome.returned [Value.str "a b"],
        { Storage := [(H "[a b c]", 0)], heap := [⟨true, [Value.str "a b"], none⟩],
          executions := 1, user := () }) := by
    intro H
    rw [memoClosure_miss H false (pureFn (List.take 1)) _ (NewMemoizer ()) rfl]; rfl
  have h2 : ∀ H : String → String,
      memoClosure H false (liftFn (pureFn (List.take 1))) [Value.str "a", Value.str "b c"]
        { Storage := [(H "[a b c]", 0)], heap := [⟨true, [Value.str "a b"], none⟩],
          executions := 1, user := () } =
      some (Outcome.returned [Value.str "a b"],
        { Storage := [(H "[a b c]", 0)], heap := [⟨true, [Value.str "a b"], none⟩],
          executions := 1, user := () }) := by
    intro H
    rw [memoClosure_hit H false (liftFn (pureFn (List.take 1))) [Value.str "a", Value.str "b c"]
      { Storage := [(H "[a b c]", 0)], heap := [⟨true, [Value.str "a b"], none⟩],
        executions := 1, user := () } 0 ⟨true, [Value.str "a b"], none⟩
      (Get_Set_self [] (H "[a b c]") 0) rfl]
    rfl
  refine ⟨fun H => ?_, fun H => ?_, rfl⟩
  · simp only [callSeq, h1 H, h2 H, Option.map]
  · have g1 : Memoize H { isVariadic := false, outs := [GoType.string] }
          (liftFn (pureFn (List.take 1))) [Value.str "a b", Value.str "c"] (NewMemoizer ()) =
        some (Outcome.returned [Value.str "a b"],
          { Storage := [(H "[a b c]", 0)], heap := [⟨true, [Value.str "a b"], none⟩],
            executions := 1, user := () }) :=
      Memoize_of_memoClosure H { isVariadic := false, outs := [GoType.string] } _ _ _ _ _ (h1 H)
    have g2 : Memoize H { isVariadic := false, outs := [GoType.string] }
          (liftFn (pureFn (List.take 1))) [Value.str "a", Value.str "b c"]
          { Storage := [(H "[a b c]", 0)], heap := [⟨true, [Value.str "a b"], none⟩],
            executions := 1, user := () } =
        some (Outcome.returned [Value.str "a b"],
          { Storage := [(H "[a b c]", 0)], heap := [⟨true, [Value.str "a b"], none⟩],
            executions := 1, user := () }) :=
      Memoize_of_memoClosure H { isVariadic := false, outs := [GoType.string] } _ _ _ _ _ (h2 H)
    simp only [callSeq, g1, g2, Option.map]

/-! ## C5: arguments that are slices or functions -/

/-- Claim C5, evaluated on the code. A call whose argument is a slice, a
function, or a struct that contains a slice does not panic: the key is derived
from the rendered argument, an entry is written to the cache and the wrapped
function is executed; this holds whatever the digest is, for the function
literal and for the memoized function that `reflect.MakeFunc` makes of it (the
wrapped function returns its argument, so the result type is the type of the
argument). -/
theorem slice_argument_is_memoized :
    (∀ H : String → String,
      memoClosure H false (liftFn firstArgFn) [Value.slice [Value.int 1, Value.int 2]] (NewMemoizer 0) =
        some (Outcome.returned [Value.slice [Value.int 1, Value.int 2]],
          { Storage := [(H "[[1 2]]", 0)],
            heap := [⟨true, [Value.slice [Value.int 1, Value.int 2]], none⟩],
            executions := 1, user := 1 })) ∧
    (∀ H : String → String,
      memoClosure H false (liftFn firstArgFn) [Value.func 4198400] (NewMemoizer 0) =
        some (Outcome.returned [Value.func 4198400],
          { Storage := [(H "[0x401000]", 0)],
            heap := [⟨true, [Value.func 4198400], none⟩],
            executions := 1, user := 1 })) ∧
    (∀ H : String → String,
      memoClosure H false (liftFn firstArgFn)
          [Value.struct [Value.str "id", Value.slice [Value.int 7]]] (NewMemoizer 0) =
        some (Outcome.returned [Value.struct [Value.str "id", Value.slice [Value.int 7]]],
          { Storage := [(H "[\x7bid [7]\x7d]", 0)],
            heap := [⟨true, [Value.struct [Value.str "id", Value.slice [Value.int 7]]], none⟩],
            executions := 1, user := 1 })) ∧
    (∀ H : String → String,
      Memoize H { isVariadic := false, outs := [GoType.slice GoType.int] } (liftFn firstArgFn)
          [Value.slice [Value.int 1, Value.int 2]] (NewMemoizer 0) =
        some (Outcome.returned [Value.slice [Value.int 1, Value.int 2]],
          { Storage := [(H "[[1 2]]", 0)],
            heap := [⟨true, [Value.slice [Value.int 1, Value.int 2]], none⟩],
            executions := 1, user := 1 })) ∧
    (∀ H : String → String,
      Memoize H { isVariadic := false, outs := [GoType.func] } (liftFn firstArgFn)
          [Value.func 4198400] (NewMemoizer 0) =
        some (Outcome.returned [Value.func 4198400],
          { Storage := [(H "[0x401000]", 0)],
            heap := [⟨true, [Value.func 4198400], none⟩],
            executions := 1, user := 1 })) ∧
    (∀ H : String → String,
      Memoize H
          { isVariadic := false,
            outs := [GoType.struct [GoType.string, GoType.slice GoType.int]] }
          (liftFn firstArgFn)
          [Value.struct [Value.str "id", Value.slice [Value.int 7]]] (NewMemoizer 0) =
        some (Outcome.returned [Value.struct [Value.str "id", Value.slice [Value.int 7]]],
          { Storage := [(H "[\x7bid [7]\x7d]", 0)],
            heap := [⟨true, [Value.struct [Value.str "id", Value.slice [Value.int 7]]], none⟩],
            executions := 1, user := 1 })) := by
  have e1 : ∀ H : String → String,
      memoClosure H false (liftFn firstArgFn) [Value.slice [Value.int 1, Value.int 2]]
        (NewMemoizer 0) =
      some (Outcome.returned [Value.slice [Value.int 1, Value.int 2]],
        { Storage := [(H "[[1 2]]", 0)],
          heap := [⟨true, [Value.slice [Value.int 1, Value.int 2]], none⟩],
          executions := 1, user := 1 }) := by
    intro H
    rw [memoClosure_miss H false firstArgFn _ (NewMemoizer 0) rfl]; rfl
  have e2 : ∀ H : String → String,
      memoClosure H false (liftFn firstArgFn) [Value.func 4198400] (NewMemoizer 0) =
      some (Outcome.returned [Value.func 4198400],
        { Storage := [(H "[0x401000]", 0)],
          heap := [⟨true, [Value.func 4198400], none⟩],
          executions := 1, user := 1 }) := by
    intro H
    rw [memoClosure_miss H false firstArgFn _ (NewMemoizer 0) rfl]; rfl
  have e3 : ∀ H : String → String,
      memoClosure H false (liftFn firstArgFn)
        [Value.struct [Value.str "id", Value.slice [Value.int 7]]] (NewMemoizer 0) =
      some (Outcome.returned [Value.struct [Value.str "id", Value.slice [Value.int 7]]],
        { Storage := [(H "[\x7bid [7]\x7d]", 0)],
          heap := [⟨true, [Value.struct [Value.str "id", Value.slice [Value.int 7]]], none⟩],
          executions := 1, user := 1 }) := by
    intro H
    rw [memoClosure_miss H false firstArgFn _ (NewMemoizer 0) rfl]; rfl
  exact ⟨e1, e2, e3,
    fun H => Memoize_of_memoClosure H
      { isVariadic := false, outs := [GoType.slice GoType.int] } _ _ _ _ _ (e1 H),
    fun H => Memoize_of_memoClosure H
      { isVariadic := false, outs := [GoType.func] } _ _ _ _ _ (e2 H),
    fun H => Memoize_of_memoClosure H
      { isVariadic := false,
        outs := [GoType.struct [GoType.string, GoType.slice GoType.int]] } _ _ _ _ _ (e3 H)⟩

/-! ## C2: the replay of a panic -/

/-- The part of C2 that the code does meet. When the wrapped function panics
with a payload other than nil on a memoizer without an entry under the key, the
call panics with that payload after one execution, and every call with the same
arguments in any later state of the run panics with the same payload and leaves
the state, execution counter included, as it was, whatever the wrapped function
is; this is so for the function literal and for the memoized function. -/
theorem panic_replayed_later {σ : Type} (H : String → String) (t : FuncType)
    (f : List Value → σ → Outcome × σ) (args : List Value) (w : World σ) (payload : Value)
    (hmiss : Get w.Storage (AsSha256 H (keyOf t.isVariadic args)) = none)
    (hpanic : (f args w.user).1 = Outcome.panicked payload)
    (hpayload : payload ≠ Value.nil) :
    ∃ w1, memoClosure H t.isVariadic (liftFn f) args w = some (Outcome.panicked payload, w1) ∧
      Memoize H t (liftFn f) args w = some (Outcome.panicked payload, w1) ∧
      w1.executions = w.executions + 1 ∧
      ∀ w2, Later H w1 w2 → ∀ g : Fn σ,
        memoClosure H t.isVariadic g args w2 = some (Outcome.panicked payload, w2) ∧
        Memoize H t g args w2 = some (Outcome.panicked payload, w2) := by
  obtain ⟨w1, h1, hex, _, hget, hheap⟩ := memoClosure_miss_then_hit H t.isVariadic f args w hmiss
  rw [hpanic] at h1
  refine ⟨w1, h1, Memoize_of_memoClosure H t (liftFn f) args w w1 _ h1, hex, fun w2 hl g => ?_⟩
  have hcell : w1.heap[w.heap.length]? = some (recordOf (Outcome.panicked payload)) := by
    rw [hheap, hpanic]
    simp
  obtain ⟨hget2, hc2⟩ := entry_stable H w1 w2 hl _ _ _ hget hcell
  have hg : memoClosure H t.isVariadic g args w2 = some (Outcome.panicked payload, w2) := by
    rw [memoClosure_hit H t.isVariadic g args w2 w.heap.length _ hget2 hc2, readCall_recordOf]
    simp [replayOf, hpayload]
  exact ⟨hg, Memoize_of_memoClosure H t g args w2 w2 _ hg⟩

/-- The call sequence of `TestPanic`, for the memoized `func(i int)`: the
panic with payload 1 is replayed for argument 1, argument 2 returns normally,
and argument 100 triggers the third execution, which panics with payload 3. -/
theorem testPanic_sequence :
    (callSeq (Memoize id { isVariadic := false, outs := [] } (liftFn testPanicF))
        [[Value.int 1], [Value.int 1], [Value.int 2], [Value.int 2], [Value.int 1], [Value.int 100]]
        (NewMemoizer 0)).map (fun x => x.1) =
      some [(Outcome.panicked (Value.int 1), 1), (Outcome.panicked (Value.int 1), 1),
        (Outcome.returned [], 2), (Outcome.returned [], 2),
        (Outcome.panicked (Value.int 1), 2), (Outcome.panicked (Value.int 3), 3)] := by
  rfl

/-- Claim C2, evaluated on the code. A wrapped function without results that
panics with its argument, `func(x interface{})`, called with nil (so `recover`
yields nil): the first call executes it and panics with nil; the second call
with the same argument does not panic, it returns normally with the empty
result list. This holds whatever the digest is, for the function literal and
for the memoized function that `reflect.MakeFunc` makes of it. -/
theorem nil_panic_is_not_replayed :
    ∀ H : String → String,
      memoClosure H false (liftFn panicArgFn) [Value.nil] (NewMemoizer 0) =
        some (Outcome.panicked Value.nil,
          { Storage := [(H "[<nil>]", 0)], heap := [⟨true, [], none⟩],
            executions := 1, user := 1 }) ∧
      memoClosure H false (liftFn panicArgFn) [Value.nil]
          { Storage := [(H "[<nil>]", 0)], heap := [⟨true, [], none⟩],
            executions := 1, user := 1 } =
        some (Outcome.returned [],
          { Storage := [(H "[<nil>]", 0)], heap := [⟨true, [], none⟩],
            executions := 1, user := 1 }) ∧
      Memoize H { isVariadic := false, outs := [] } (liftFn panicArgFn) [Value.nil]
          (NewMemoizer 0) =
        some (Outcome.panicked Value.nil,
          { Storage := [(H "[<nil>]", 0)], heap := [⟨true, [], none⟩],
            executions := 1, user := 1 }) ∧
      Memoize H { isVariadic := false, outs := [] } (liftFn panicArgFn) [Value.nil]
          { Storage := [(H "[<nil>]", 0)], heap := [⟨true, [], none⟩],
            executions := 1, user := 1 } =
        some (Outcome.returned [],
          { Storage := [(H "[<nil>]", 0)], heap := [⟨true, [], none⟩],
            executions := 1, user := 1 }) := by
  intro H
  have h1 : memoClosure H false (liftFn panicArgFn) [Value.nil] (NewMemoizer 0) =
      some (Outcome.panicked Value.nil,
        { Storage := [(H "[<nil>]", 0)], heap := [⟨true, [], none⟩],
          executions := 1, user := 1 }) := by
    rw [memoClosure_miss H false panicArgFn _ (NewMemoizer 0) rfl]; rfl
  have h2 : memoClosure H false (liftFn panicArgFn) [Value.nil]
      { Storage := [(H "[<nil>]", 0)], heap := [⟨true, [], none⟩],
        executions := 1, user := 1 } =
      some (Outcome.returned [],
        { Storage := [(H "[<nil>]", 0)], heap := [⟨true, [], none⟩],
          executions := 1, user := 1 }) := by
    rw [memoClosure_hit H false (liftFn panicArgFn) [Value.nil]
      { Storage := [(H "[<nil>]", 0)], heap := [⟨true, [], none⟩], executions := 1, user := 1 }
      0 ⟨true, [], none⟩ (Get_Set_self [] (H "[<nil>]") 0) rfl]
    rfl
  exact ⟨h1, h2,
    Memoize_of_memoClosure H { isVariadic := false, outs := [] } _ _ _ _ _ h1,
    Memoize_of_memoClosure H { isVariadic := false, outs := [] } _ _ _ _ _ h2⟩

/-! ## C7: the recursive variadic `concat` -/

/-- Claim C7, evaluated on the code. On a fresh memoizer the call
`concat("x", "")` never returns, whatever the digest and however large the
bound on the recursion. The tuple ("x"; "") and the tuple ("x"; ) of its
recursive call both render to `[x []]`, so the recursive call finds the
entry of the outer call, which is still pending, and waits on it for ever:
`concat` has been executed once, the cache holds one entry, and the recursive
call has no entry of its own. -/
theorem concat_empty_string_blocks :
    ∀ (H : String → String) (fuel : Nat),
      concatMemo H (fuel + 2) [Value.str "x", Value.slice [Value.str ""]] (NewMemoizer 0) =
        some (Outcome.blocked,
          { Storage := [(H "[x []]", 0)], heap := [⟨false, [], none⟩],
            executions := 1, user := 1 }) := by
  intro H fuel
  have hin : concatMemo H (fuel + 1) [Value.str ("x" ++ ""), Value.slice []]
      { Storage := [(H "[x []]", 0)], heap := [⟨false, [], none⟩], executions := 1, user := 1 } =
      some (Outcome.blocked,
        { Storage := [(H "[x []]", 0)], heap := [⟨false, [], none⟩],
          executions := 1, user := 1 }) :=
    Memoize_of_memoClosure H { isVariadic := true, outs := [GoType.string] }
      (concat (concatMemo H fuel)) [Value.str ("x" ++ ""), Value.slice []]
      { Storage := [(H "[x []]", 0)], heap := [⟨false, [], none⟩], executions := 1, user := 1 }
      _ Outcome.blocked
      (memoClosure_hit H true (concat (concatMemo H fuel)) [Value.str ("x" ++ ""), Value.slice []]
        { Storage := [(H "[x []]", 0)], heap := [⟨false, [], none⟩], executions := 1, user := 1 }
        0 ⟨false, [], none⟩ (Get_Set_self [] (H "[x []]") 0) rfl)
  have hmiss : Get (NewMemoizer 0 : World Nat).Storage
      (AsSha256 H (keyOf true [Value.str "x", Value.slice [Value.str ""]])) = none := rfl
  have hbody : concat (concatMemo H (fuel + 1)) [Value.str "x", Value.slice [Value.str ""]]
      { Storage := [(H "[x []]", 0)], heap := [⟨false, [], none⟩], executions := 1, user := 0 } =
      some (Outcome.blocked,
        { Storage := [(H "[x []]", 0)], heap := [⟨false, [], none⟩],
          executions := 1, user := 1 }) := hin
  have hout : memoClosure H true (concat (concatMemo H (fuel + 1)))
      [Value.str "x", Value.slice [Value.str ""]] (NewMemoizer 0) =
      some (Outcome.blocked,
        { Storage := [(H "[x []]", 0)], heap := [⟨false, [], none⟩],
          executions := 1, user := 1 }) := by
    rw [memoClosure_miss_fn H true _ _ (NewMemoizer 0) hmiss]
    exact congrArg (settle 0) hbody
  exact Memoize_of_memoClosure H { isVariadic := true, outs := [GoType.string] }
    (concat (concatMemo H (fuel + 1))) _ (NewMemoizer 0) _ Outcome.blocked hout

theorem chain_head (s0 : String) (xs : List String) :
    ∃ rest, chain s0 xs = concatArgs s0 xs :: rest := by
  cases xs with
  | nil => exact ⟨[], rfl⟩
  | cons x rest => exact ⟨chain (s0 ++ x) rest, rfl⟩

theorem readCall_closed (c : call) (h : c.waitClosed = true) : readCall c ≠ Outcome.blocked := by
  unfold readCall
  rw [h]
  cases c.panicked <;> simp

theorem concat_chain_hit (H : String → String) (s0 : String) (xs : List String) (w : World Nat)
    (fuel p : Nat) (c : call)
    (hg : Get w.Storage (AsSha256 H (keyOf true (concatArgs s0 xs))) = some p)
    (hc : w.heap[p]? = some c) (hclosed : c.waitClosed = true) :
    ∃ o w1, concatMemo H (fuel + 1) (concatArgs s0 xs) w = some (o, w1) ∧
      ChainResult H s0 xs w o w1 := by
  obtain ⟨rest, hrest⟩ := chain_head s0 xs
  have hnew : chainNew H w.Storage (chain s0 xs) = [] := by
    rw [hrest]
    simp [chainNew, hg]
  refine ⟨checkOut [GoType.string] (readCall c), w,
    Memoize_of_memoClosure H { isVariadic := true, outs := [GoType.string] }
      (concat (concatMemo H fuel)) (concatArgs s0 xs) w w (readCall c)
      (memoClosure_hit H true (concat (concatMemo H fuel)) (concatArgs s0 xs) w p c hg hc), ?_⟩
  unfold ChainResult
  rw [hnew, hrest]
  refine ⟨fun e => readCall_closed c hclosed ((checkOut_eq_blocked _ _).1 e), rfl, rfl, ?_,
    fun _ _ h => h, fun _ _ h => h, ?_⟩
  · intro i a h
    simp at h
  · intro h
    simp at h

theorem chainNew_Set_other (H : String → String) (st : List (String × Nat)) (k : String) (p : Nat) :
    ∀ l : List (List Value), (∀ a ∈ l, AsSha256 H (keyOf true a) ≠ k) →
      chainNew H (Set st k p) l = chainNew H st l := by
  intro l
  induction l with
  | nil => intro _; rfl
  | cons a rest ih =>
    intro h
    have ha : k ≠ AsSha256 H (keyOf true a) := fun e => h a (List.mem_cons_self _ _) e.symm
    have hrest := ih (fun b hb => h b (List.mem_cons_of_mem _ hb))
    simp only [chainNew, Get_Set_other _ _ _ _ ha, hrest]

theorem concat_chain_miss_nil (H : String → String) (s0 : String) (w : World Nat) (fuel : Nat)
    (hg : Get w.Storage (AsSha256 H (keyOf true (concatArgs s0 []))) = none) :
    ∃ o w1, concatMemo H (fuel + 1) (concatArgs s0 []) w = some (o, w1) ∧
      ChainResult H s0 [] w o w1 := by
  have hcall : concatMemo H (fuel + 1) (concatArgs s0 []) w =
      some (Outcome.returned [Value.str s0],
        { Storage := Set w.Storage (AsSha256 H (keyOf true (concatArgs s0 []))) w.heap.length,
          heap := w.heap ++ [{ waitClosed := true, results := [Value.str s0], panicked := none }],
          executions := w.executions + 1,
          user := w.user + 1 }) := by
    have hlit : memoClosure H true (concat (concatMemo H fuel)) (concatArgs s0 []) w =
        some (Outcome.returned [Value.str s0],
          { Storage := Set w.Storage (AsSha256 H (keyOf true (concatArgs s0 []))) w.heap.length,
            heap := w.heap ++ [{ waitClosed := true, results := [Value.str s0], panicked := none }],
            executions := w.executions + 1,
            user := w.user + 1 }) := by
      rw [memoClosure_miss_fn H true _ _ w hg]
      show settle w.heap.length (some (Outcome.returned [Value.str s0], _)) = _
      simp [settle, updateCall_append_last]
    exact Memoize_of_memoClosure H { isVariadic := true, outs := [GoType.string] }
      (concat (concatMemo H fuel)) (concatArgs s0 []) w _ _ hlit
  have hnew : chainNew H w.Storage (chain s0 []) = [concatArgs s0 []] := by
    simp [chain, chainNew, hg]
  refine ⟨_, _, hcall, ?_⟩
  unfold ChainResult
  rw [hnew]
  refine ⟨by simp, rfl, rfl, ?_, ?_, ?_, fun _ => rfl⟩
  · intro i a h
    cases i with
    | zero =>
      simp only [List.getElem?_cons_zero, Option.some.injEq] at h
      subst h
      exact ⟨Get_Set_self _ _ _,
        { waitClosed := true, results := [Value.str s0], panicked := none }, by simp, rfl⟩
    | succ j => simp at h
  · intro k p h
    have hne : AsSha256 H (keyOf true (concatArgs s0 [])) ≠ k := by
      intro e
      rw [e, h] at hg
      exact Option.noConfusion hg
    show Get (Set _ _ _) k = some p
    rw [Get_Set_other _ _ _ _ hne]
    exact h
  · intro p c h
    show (w.heap ++ _)[p]? = some c
    rw [List.getElem?_append_left (getElem?_lt_length _ _ _ h)]
    exact h

theorem concat_chain_miss_cons (H : String → String) (s0 x : String) (rest : List String)
    (w : World Nat) (fuel : Nat)
    (hg : Get w.Storage (AsSha256 H (keyOf true (concatArgs s0 (x :: rest)))) = none)
    (hne : ∀ a ∈ chain (s0 ++ x) rest,
      AsSha256 H (keyOf true a) ≠ AsSha256 H (keyOf true (concatArgs s0 (x :: rest))))
    (ih : ∃ o w2, concatMemo H fuel (concatArgs (s0 ++ x) rest)
        { Storage := Set w.Storage (AsSha256 H (keyOf true (concatArgs s0 (x :: rest))))
            w.heap.length,
          heap := w.heap ++ [{ waitClosed := false, results := [], panicked := none }],
          executions := w.executions + 1,
          user := w.user + 1 } = some (o, w2) ∧
      ChainResult H (s0 ++ x) rest
        { Storage := Set w.Storage (AsSha256 H (keyOf true (concatArgs s0 (x :: rest))))
            w.heap.length,
          heap := w.heap ++ [{ waitClosed := false, results := [], panicked := none }],
          executions := w.executions + 1,
          user := w.user + 1 } o w2) :
    ∃ o w1, concatMemo H (fuel + 1) (concatArgs s0 (x :: rest)) w = some (o, w1) ∧
      ChainResult H s0 (x :: rest) w o w1 := by
  obtain ⟨o, w2, hrec, hres⟩ := ih
  unfold ChainResult at hres
  rw [chainNew_Set_other H w.Storage _ _ _ hne] at hres
  obtain ⟨hend, huser, hexec, hentries, hst, hheap, hval⟩ := hres
  obtain ⟨f, hf, hsettle⟩ := settle_ended w.heap.length o w2 hend
  have hcall : concatMemo H (fuel + 1) (concatArgs s0 (x :: rest)) w =
      some (o, { w2 with heap := updateCall w2.heap w.heap.length f }) := by
    have hsame : checkOut [GoType.string] o = o := by
      cases fuel with
      | zero => exact Option.noConfusion hrec
      | succ n =>
        obtain ⟨o1, _, ho1⟩ := Memoize_some H { isVariadic := true, outs := [GoType.string] }
          (concat (concatMemo H n)) _ _ _ _ hrec
        rw [ho1]
        exact checkOut_idem _ _
    have hlit : memoClosure H true (concat (concatMemo H fuel)) (concatArgs s0 (x :: rest)) w =
        some (o, { w2 with heap := updateCall w2.heap w.heap.length f }) := by
      rw [memoClosure_miss_fn H true _ _ w hg, ← hsettle, ← hrec]
      rfl
    have hfull := Memoize_of_memoClosure H { isVariadic := true, outs := [GoType.string] }
      (concat (concatMemo H fuel)) (concatArgs s0 (x :: rest)) w _ _ hlit
    rw [hsame] at hfull
    exact hfull
  have hnew : chainNew H w.Storage (chain s0 (x :: rest)) =
      concatArgs s0 (x :: rest) :: chainNew H w.Storage (chain (s0 ++ x) rest) := by
    simp only [chain, chainNew, hg]
  have hpending : w2.heap[w.heap.length]? =
      some { waitClosed := false, results := [], panicked := none } :=
    hheap _ _ (by simp)
  refine ⟨o, _, hcall, ?_⟩
  unfold ChainResult
  rw [hnew]
  refine ⟨hend, ?_, ?_, ?_, ?_, ?_, ?_⟩
  · show w2.user = _
    rw [huser]
    simp only [List.length_cons]
    omega
  · show w2.executions = _
    rw [hexec]
    simp only [List.length_cons]
    omega
  · intro i a h
    cases i with
    | zero =>
      simp only [List.getElem?_cons_zero, Option.some.injEq] at h
      subst h
      refine ⟨hst _ _ (Get_Set_self _ _ _),
        f { waitClosed := false, results := [], panicked := none }, ?_, hf _⟩
      exact updateCall_get_self _ _ _ _ hpending
    | succ j =>
      simp only [List.getElem?_cons_succ] at h
      obtain ⟨hget, c, hc, hclosed⟩ := hentries j a h
      simp only [List.length_append, List.length_singleton] at hget hc
      have e : w.heap.length + (j + 1) = w.heap.length + 1 + j := by omega
      refine ⟨by rw [e]; exact hget, c, ?_, hclosed⟩
      show (updateCall w2.heap w.heap.length f)[w.heap.length + (j + 1)]? = some c
      rw [updateCall_get_other _ _ _ _ (by omega), e]
      exact hc
  · intro k p h
    have hk : AsSha256 H (keyOf true (concatArgs s0 (x :: rest))) ≠ k := by
      intro e
      rw [e, h] at hg
      exact Option.noConfusion hg
    exact hst k p (by rw [Get_Set_other _ _ _ _ hk]; exact h)
  · intro p c h
    have hlt := getElem?_lt_length _ _ _ h
    show (updateCall w2.heap w.heap.length f)[p]? = some c
    rw [updateCall_get_other _ _ _ _ (by omega)]
    exact hheap p c (by rw [List.getElem?_append_left hlt]; exact h)
  · intro hall
    simp only [chain, List.length_cons, Nat.add_right_cancel_iff] at hall
    rw [hval hall]
    rfl

theorem concat_chain_result (H : String → String) :
    ∀ (xs : List String) (s0 : String) (w : World Nat) (fuel : Nat),
      xs.length < fuel →
      ((chain s0 xs).map (fun a => AsSha256 H (keyOf true a))).Nodup →
      (∀ a ∈ chain s0 xs, ∀ p, Get w.Storage (AsSha256 H (keyOf true a)) = some p →
        ∃ c, w.heap[p]? = some c ∧ c.waitClosed = true) →
      ∃ o w1, concatMemo H fuel (concatArgs s0 xs) w = some (o, w1) ∧
        ChainResult H s0 xs w o w1 := by
  intro xs
  induction xs with
  | nil =>
    intro s0 w fuel hfuel _ hq
    obtain ⟨fuel1, rfl⟩ : ∃ n, fuel = n + 1 := ⟨fuel - 1, by simp at hfuel; omega⟩
    cases hg : Get w.Storage (AsSha256 H (keyOf true (concatArgs s0 []))) with
    | none => exact concat_chain_miss_nil H s0 w fuel1 hg
    | some p =>
      obtain ⟨c, hc, hclosed⟩ := hq (concatArgs s0 []) (by simp [chain]) p hg
      exact concat_chain_hit H s0 [] w fuel1 p c hg hc hclosed
  | cons x rest ih =>
    intro s0 w fuel hfuel hnd hq
    obtain ⟨fuel1, rfl⟩ : ∃ n, fuel = n + 1 := ⟨fuel - 1, by simp at hfuel; omega⟩
    cases hg : Get w.Storage (AsSha256 H (keyOf true (concatArgs s0 (x :: rest)))) with
    | some p =>
      obtain ⟨c, hc, hclosed⟩ := hq (concatArgs s0 (x :: rest)) (by simp [chain]) p hg
      exact concat_chain_hit H s0 (x :: rest) w fuel1 p c hg hc hclosed
    | none =>
      simp only [chain, List.map_cons, List.nodup_cons, List.mem_map, not_exists, not_and] at hnd
      obtain ⟨hfresh, hnd1⟩ := hnd
      have hne : ∀ a ∈ chain (s0 ++ x) rest,
          AsSha256 H (keyOf true a) ≠ AsSha256 H (keyOf true (concatArgs s0 (x :: rest))) :=
        fun a ha => hfresh a ha
      apply concat_chain_miss_cons H s0 x rest w fuel1 hg hne
      apply ih (s0 ++ x) _ fuel1 (by simp at hfuel; omega) hnd1
      intro a ha p hp
      have hk : AsSha256 H (keyOf true (concatArgs s0 (x :: rest))) ≠
          AsSha256 H (keyOf true a) := fun e => hne a ha e.symm
      rw [Get_Set_other _ _ _ _ hk] at hp
      obtain ⟨c, hc, hclosed⟩ := hq a (by simp [chain, ha]) p hp
      exact ⟨c, by
        show (w.heap ++ _)[p]? = some c
        rw [List.getElem?_append_left (getElem?_lt_length _ _ _ hc)]
        exact hc, hclosed⟩

/-- The part of C7 that the code does meet. In a state whose entries are all
completed, for a tuple (s0 ; x1, ..., xk) whose recursion chain has pairwise
different keys and with a recursion bound above k, the call of the memoized
`concat` comes to an end; it executes `concat` once for each tuple of the chain taken in order up
to, and without, the first one whose key is already cached (none when the
tuple itself is cached); each of those tuples gets an entry of its own with a
completed record; the older entries and records stay as they were; and when
no tuple of the chain was cached the result is the concatenation. -/
theorem concat_chain_executions (H : String → String) (s0 : String) (xs : List String)
    (w : World Nat) (fuel : Nat)
    (hfuel : xs.length < fuel)
    (hkeys : ((chain s0 xs).map (fun a => AsSha256 H (keyOf true a))).Nodup)
    (hdone : ∀ k p, Get w.Storage k = some p → ∃ c, w.heap[p]? = some c ∧ c.waitClosed = true) :
    ∃ o w1, concatMemo H fuel (concatArgs s0 xs) w = some (o, w1) ∧
      o ≠ Outcome.blocked ∧
      w1.user = w.user + (chainNew H w.Storage (chain s0 xs)).length ∧
      w1.executions = w.executions + (chainNew H w.Storage (chain s0 xs)).length ∧
      (∀ (i : Nat) (a : List Value), (chainNew H w.Storage (chain s0 xs))[i]? = some a →
        Get w1.Storage (AsSha256 H (keyOf true a)) = some (w.heap.length + i) ∧
        ∃ c, w1.heap[w.heap.length + i]? = some c ∧ c.waitClosed = true) ∧
      (∀ (k : String) (p : Nat), Get w.Storage k = some p → Get w1.Storage k = some p) ∧
      (∀ (p : Nat) (c : call), w.heap[p]? = some c → w1.heap[p]? = some c) ∧
      ((chainNew H w.Storage (chain s0 xs)).length = (chain s0 xs).length →
        o = Outcome.returned [Value.str (xs.foldl (fun a b => a ++ b) s0)]) := by
  obtain ⟨o, w1, hcall, hres⟩ :=
    concat_chain_result H xs s0 w fuel hfuel hkeys (fun a _ p hp => hdone _ p hp)
  exact ⟨o, w1, hcall, hres⟩

/-- An instance of `concat_chain_executions`: `concat("string", "one", "two")`
on a fresh memoizer. -/
theorem concat_chain_executions_witness :
    ∃ o w1, concatMemo id 3 (concatArgs "string" ["one", "two"]) (NewMemoizer 0) = some (o, w1) ∧
      o ≠ Outcome.blocked ∧
      w1.user = (NewMemoizer 0 : World Nat).user +
        (chainNew id (NewMemoizer 0 : World Nat).Storage (chain "string" ["one", "two"])).length ∧
      w1.executions = (NewMemoizer 0 : World Nat).executions +
        (chainNew id (NewMemoizer 0 : World Nat).Storage (chain "string" ["one", "two"])).length ∧
      (∀ (i : Nat) (a : List Value),
        (chainNew id (NewMemoizer 0 : World Nat).Storage (chain "string" ["one", "two"]))[i]? = some a →
        Get w1.Storage (AsSha256 id (keyOf true a)) = some ((NewMemoizer 0 : World Nat).heap.length + i) ∧
        ∃ c, w1.heap[(NewMemoizer 0 : World Nat).heap.length + i]? = some c ∧ c.waitClosed = true) ∧
      (∀ (k : String) (p : Nat), Get (NewMemoizer 0 : World Nat).Storage k = some p →
        Get w1.Storage k = some p) ∧
      (∀ (p : Nat) (c : call), (NewMemoizer 0 : World Nat).heap[p]? = some c → w1.heap[p]? = some c) ∧
      ((chainNew id (NewMemoizer 0 : World Nat).Storage (chain "string" ["one", "two"])).length =
          (chain "string" ["one", "two"]).length →
        o = Outcome.returned [Value.str (["one", "two"].foldl (fun a b => a ++ b) "string")]) :=
  concat_chain_executions id "string" ["one", "two"] (NewMemoizer 0) 3 (by decide) (by decide)
    (fun k p h => by simp [NewMemoizer, Get] at h)

/-- A call of the memoized `concat` without trailing arguments (a nil trailing
slice) does what the call with an empty trailing slice does. -/
theorem concatMemo_nilSlice (H : String → String) (fuel : Nat) (s0 : String) (w : World Nat) :
    concatMemo H fuel [Value.str s0, Value.nilSlice] w = concatMemo H fuel (concatArgs s0 []) w := by
  cases fuel with
  | zero => rfl
  | succ n =>
    have hlit : memoClosure H true (concat (concatMemo H n)) [Value.str s0, Value.nilSlice] w =
        memoClosure H true (concat (concatMemo H n)) (concatArgs s0 []) w := by
      have hkey : AsSha256 H (keyOf true [Value.str s0, Value.nilSlice]) =
          AsSha256 H (keyOf true (concatArgs s0 [])) := rfl
      unfold memoClosure
      simp only [hkey]
      rfl
    show MakeFunc _ (memoClosure H true (concat (concatMemo H n))) _ w =
      MakeFunc _ (memoClosure H true (concat (concatMemo H n))) _ w
    unfold MakeFunc
    rw [hlit]

/-- The call sequence of `TestVariadic`, with a digest that has no collisions:
the results are those the test expects and the cumulative numbers of
executions of `concat` are 1, 3, 3, 5, 5, 7, 8. -/
theorem concat_test_sequence :
    ∀ fuel : Nat,
      (callSeq (concatMemo id (fuel + 2))
          [[Value.str "string", Value.nilSlice],
           [Value.str "string", Value.slice [Value.str "one"]],
           [Value.str "string", Value.slice [Value.str "one"]],
           [Value.str "string", Value.slice [Value.str "two"]],
           [Value.str "string", Value.slice [Value.str "one"]],
           [Value.str "stringone", Value.slice [Value.str "two"]],
           [Value.str "string", Value.slice [Value.str "one", Value.str "two"]]] (NewMemoizer 0)).map (fun x => x.1) =
        some [(Outcome.returned [Value.str "string"], 1),
          (Outcome.returned [Value.str "stringone"], 3),
          (Outcome.returned [Value.str "stringone"], 3),
          (Outcome.returned [Value.str "stringtwo"], 5),
          (Outcome.returned [Value.str "stringone"], 5),
          (Outcome.returned [Value.str "stringonetwo"], 7),
          (Outcome.returned [Value.str "stringonetwo"], 8)] := by
  intro fuel
  have h1 : concatMemo id (fuel + 2) [Value.str "string", Value.nilSlice] (NewMemoizer 0) =
      some (Outcome.returned [Value.str "string"],
      { Storage := [("[string []]", 0)],
        heap := [⟨true, [Value.str "string"], none⟩],
        executions := 1, user := 1 }) := rfl
  have h2 : concatMemo id (fuel + 2) [Value.str "string", Value.slice [Value.str "one"]] 
      { Storage := [("[string []]", 0)],
        heap := [⟨true, [Value.str "string"], none⟩],
        executions := 1, user := 1 } =
      some (Outcome.returned [Value.str "stringone"],
      { Storage := [("[stringone []]", 2), ("[string [one]]", 1), ("[string []]", 0)],
        heap := [⟨true, [Value.str "string"], none⟩, ⟨true, [Value.str "stringone"], none⟩, ⟨true, [Value.str "stringone"], none⟩],
        executions := 3, user := 3 }) := rfl
  have h3 : concatMemo id (fuel + 2) [Value.str "string", Value.slice [Value.str "one"]] 
      { Storage := [("[stringone []]", 2), ("[string [one]]", 1), ("[string []]", 0)],
        heap := [⟨true, [Value.str "string"], none⟩, ⟨true, [Value.str "stringone"], none⟩, ⟨true, [Value.str "stringone"], none⟩],
        executions := 3, user := 3 } =
      some (Outcome.returned [Value.str "stringone"],
      { Storage := [("[stringone []]", 2), ("[string [one]]", 1), ("[string []]", 0)],
        heap := [⟨true, [Value.str "string"], none⟩, ⟨true, [Value.str "stringone"], none⟩, ⟨true, [Value.str "stringone"], none⟩],
        executions := 3, user := 3 }) := rfl
  have h4 : concatMemo id (fuel + 2) [Value.str "string", Value.slice [Value.str "two"]] 
      { Storage := [("[stringone []]", 2), ("[string [one]]", 1), ("[string []]", 0)],
        heap := [⟨true, [Value.str "string"], none⟩, ⟨true, [Value.str "stringone"], none⟩, ⟨true, [Value.str "stringone"], none⟩],
        executions := 3, user := 3 } =
      some (Outcome.returned [Value.str "stringtwo"],
      { Storage := [("[stringtwo []]", 4), ("[string [two]]", 3), ("[stringone []]", 2), ("[string [one]]", 1), ("[string []]", 0)],
        heap := [⟨true, [Value.str "string"], none⟩, ⟨true, [Value.str "stringone"], none⟩, ⟨true, [Value.str "stringone"], none⟩, ⟨true, [Value.str "stringtwo"], none⟩, ⟨true, [Value.str "stringtwo"], none⟩],
        executions := 5, user := 5 }) := rfl
  have h5 : concatMemo id (fuel + 2) [Value.str "string", Value.slice [Value.str "one"]] 
      { Storage := [("[stringtwo []]", 4), ("[string [two]]", 3), ("[stringone []]", 2), ("[string [one]]", 1), ("[string []]", 0)],
        heap := [⟨true, [Value.str "string"], none⟩, ⟨true, [Value.str "stringone"], none⟩, ⟨true, [Value.str "stringone"], none⟩, ⟨true, [Value.str "stringtwo"], none⟩, ⟨true, [Value.str "stringtwo"], none⟩],
        executions := 5, user := 5 } =
      some (Outcome.returned [Value.str "stringone"],
      { Storage := [("[stringtwo []]", 4), ("[string [two]]", 3), ("[stringone []]", 2), ("[string [one]]", 1), ("[string []]", 0)],
        heap := [⟨true, [Value.str "string"], none⟩, ⟨true, [Value.str "stringone"], none⟩, ⟨true, [Value.str "stringone"], none⟩, ⟨true, [Value.str "stringtwo"], none⟩, ⟨true, [Value.str "stringtwo"], none⟩],
        executions := 5, user := 5 }) := rfl
  have h6 : concatMemo id (fuel + 2) [Value.str "stringone", Value.slice [Value.str "two"]] 
      { Storage := [("[stringtwo []]", 4), ("[string [two]]", 3), ("[stringone []]", 2), ("[string [one]]", 1), ("[string []]", 0)],
        heap := [⟨true, [Value.str "string"], none⟩, ⟨true, [Value.str "stringone"], none⟩, ⟨true, [Value.str "stringone"], none⟩, ⟨true, [Value.str "stringtwo"], none⟩, ⟨true, [Value.str "stringtwo"], none⟩],
        executions := 5, user := 5 } =
      some (Outcome.returned [Value.str "stringonetwo"],
      { Storage := [("[stringonetwo []]", 6), ("[stringone [two]]", 5), ("[stringtwo []]", 4), ("[string [two]]", 3), ("[stringone []]", 2), ("[string [one]]", 1), ("[string []]", 0)],
        heap := [⟨true, [Value.str "string"], none⟩, ⟨true, [Value.str "stringone"], none⟩, ⟨true, [Value.str "stringone"], none⟩, ⟨true, [Value.str "stringtwo"], none⟩, ⟨true, [Value.str "stringtwo"], none⟩, ⟨true, [Value.str "stringonetwo"], none⟩, ⟨true, [Value.str "stringonetwo"], none⟩],
        executions := 7, user := 7 }) := rfl
  have h7 : concatMemo id (fuel + 2) [Value.str "string", Value.slice [Value.str "one", Value.str "two"]] 
      { Storage := [("[stringonetwo []]", 6), ("[stringone [two]]", 5), ("[stringtwo []]", 4), ("[string [two]]", 3), ("[stringone []]", 2), ("[string [one]]", 1), ("[string []]", 0)],
        heap := [⟨true, [Value.str "string"], none⟩, ⟨true, [Value.str "stringone"], none⟩, ⟨true, [Value.str "stringone"], none⟩, ⟨true, [Value.str "stringtwo"], none⟩, ⟨true, [Value.str "stringtwo"], none⟩, ⟨true, [Value.str "stringonetwo"], none⟩, ⟨true, [Value.str "stringonetwo"], none⟩],
        executions := 7, user := 7 } =
      some (Outcome.returned [Value.str "stringonetwo"],
      { Storage := [("[string [one two]]", 7), ("[stringonetwo []]", 6), ("[stringone [two]]", 5), ("[stringtwo []]", 4), ("[string [two]]", 3), ("[stringone []]", 2), ("[string [one]]", 1), ("[string []]", 0)],
        heap := [⟨true, [Value.str "string"], none⟩, ⟨true, [Value.str "stringone"], none⟩, ⟨true, [Value.str "stringone"], none⟩, ⟨true, [Value.str "stringtwo"], none⟩, ⟨true, [Value.str "stringtwo"], none⟩, ⟨true, [Value.str "stringonetwo"], none⟩, ⟨true, [Value.str "stringonetwo"], none⟩, ⟨true, [Value.str "stringonetwo"], none⟩],
        executions := 8, user := 8 }) := rfl
  simp only [callSeq, h1, h2, h3, h4, h5, h6, h7, Option.map]

end GoMemoize
